import Mathlib

/-!
Verification of the FSH importer core (`src/import/FSHImporter.ts`).

The definitions below are a shallow embedding of the importer: each Lean
definition mirrors one function or data structure of the TypeScript source,
with JavaScript maps modelled as insertion-ordered association lists,
`undefined`/optional values as `Option`, thrown exceptions as `Except`, and
calls to the global logger as explicitly returned lists of diagnostics.
The external FHIR definition provider (`src/fhirdefs`, not part of the core
sources) is modelled from the specification of its lookup surface.
-/

/-- A single-quote character, used when assembling diagnostic messages. -/
def sglq : String := String.singleton (Char.ofNat 39)

/-- `TextLocation` from the AST types: 1-based start/end line and column. -/
structure TextLocation where
  startLine : Nat
  startColumn : Nat
  endLine : Nat
  endColumn : Nat
deriving DecidableEq, Repr

/-- `sourceInfo` carried by produced IR nodes: file plus location. -/
structure SourceInfo where
  file : String
  location : TextLocation
deriving DecidableEq, Repr

/-- A structured diagnostic as handed to the logger: message, file, location. -/
structure Diag where
  message : String
  file : String
  location : TextLocation
deriving DecidableEq, Repr

/-- The `EntityType` enum of `FSHImporter.ts` (lines 79-88). -/
inductive EntityType where
  | Alias | Profile | Extension | ValueSet | CodeSystem | Instance
  | Resource | Type
deriving DecidableEq, Repr

/-- A JavaScript `Map<string, string>` as an insertion-ordered association list. -/
abbrev SMap := List (String × String)

/-- `Map.get`: the value bound to `k`, if any. -/
def smapGet (m : SMap) (k : String) : Option String :=
  match m with
  | [] => none
  | (a, b) :: t => if a = k then some b else smapGet t k

/-- `Map.set`: update in place if the key is present (JS maps keep the original
insertion position), append otherwise. -/
def smapSet (m : SMap) (k v : String) : SMap :=
  match m with
  | [] => [(k, v)]
  | (a, b) :: t => if a = k then (k, v) :: t else (a, b) :: smapSet t k v

/-- The `PreprocessedData` tables (`FSHImporter.ts` lines 96-139): one map per
entity kind plus the cross-kind `all` map. -/
structure PreprocessedData where
  aliases : SMap := []
  profiles : SMap := []
  extensions : SMap := []
  valueSets : SMap := []
  codeSystems : SMap := []
  instances : SMap := []
  all : SMap := []
deriving DecidableEq, Repr

/-- `PreprocessedData.forType` (lines 105-126): the per-kind table; `Resource`
and `Type` have no local table, so the source returns a fresh empty map. -/
def PreprocessedData.forType (d : PreprocessedData) : EntityType → SMap
  | .Alias => d.aliases
  | .Profile => d.profiles
  | .Extension => d.extensions
  | .ValueSet => d.valueSets
  | .CodeSystem => d.codeSystems
  | .Instance => d.instances
  | .Resource => []
  | .Type => []

/-- Writing back the per-kind table selected by `forType`.  For `Resource` and
`Type` the source mutates the fresh map returned by `forType`, which is then
discarded, so the state is unchanged. -/
def PreprocessedData.setForType (d : PreprocessedData) (t : EntityType) (m : SMap) :
    PreprocessedData :=
  match t with
  | .Alias => { d with aliases := m }
  | .Profile => { d with profiles := m }
  | .Extension => { d with extensions := m }
  | .ValueSet => { d with valueSets := m }
  | .CodeSystem => { d with codeSystems := m }
  | .Instance => { d with instances := m }
  | .Resource => d
  | .Type => d

/-- `PreprocessedData.register` (lines 128-138).  If the name already maps to a
different URL in the per-kind table, or in the global table, the registration
is dropped; the two conflict branches of the source contain only an `// error`
comment and perform no action (in particular, no diagnostic is logged).
Otherwise both the per-kind table and `all` are updated. -/
def PreprocessedData.register (d : PreprocessedData) (name value : String)
    (t : EntityType) : PreprocessedData :=
  let typeMap := d.forType t
  if (smapGet typeMap name).isSome ∧ smapGet typeMap name ≠ some value then
    d
  else if (smapGet d.all name).isSome ∧ smapGet d.all name ≠ some value then
    d
  else
    { d.setForType t (smapSet typeMap name value) with
      all := smapSet d.all name value }

/-- Modelled from the spec: a record returned by the per-kind lookups of the
external FHIR definition provider (`src/fhirdefs` is not among the core
sources); §6 of the spec gives each lookup the shape `find*(symbol) → {url?} | null`. -/
structure FhirDef where
  url : Option String := none

/-- Modelled from the spec: the definition-provider interface of §6.  `find` is
the generic lookup used when no entity kinds are given; the importer uses its
result directly as a URL string. -/
structure FHIRDefinitions where
  find : String → Option String
  findResource : String → Option FhirDef
  findType : String → Option FhirDef
  findProfile : String → Option FhirDef
  findExtension : String → Option FhirDef
  findValueSet : String → Option FhirDef
  findCodeSystem : String → Option FhirDef

/-- The `if (def && def.url)` test of the external-lookup loop: the record must
exist and carry a truthy (non-empty) URL. -/
def truthyUrl (d : Option FhirDef) : Option String :=
  match d with
  | some r =>
    match r.url with
    | some u => if u = "" then none else some u
    | none => none
  | none => none

/-- One iteration of the external-provider loop of `normalizedValue`
(lines 1104-1132): dispatch on the entity kind; `Instance` is deliberately
never resolved externally, and `Alias` has no external lookup either. -/
def externalLookup (defs : FHIRDefinitions) (t : EntityType) (value : String) :
    Option String :=
  match t with
  | .Resource => truthyUrl (defs.findResource value)
  | .Type => truthyUrl (defs.findType value)
  | .Profile => truthyUrl (defs.findProfile value)
  | .Extension => truthyUrl (defs.findExtension value)
  | .ValueSet => truthyUrl (defs.findValueSet value)
  | .CodeSystem => truthyUrl (defs.findCodeSystem value)
  | .Instance => none
  | .Alias => none

/-- `normalizedValue` (lines 1090-1135): with no kinds, consult the global
table, then the provider's generic `find`, else echo the input.  With kinds,
exhaust the local per-kind tables in caller order, then the per-kind external
lookups in caller order, else echo the input. -/
def normalizedValue (d : PreprocessedData) (defs : FHIRDefinitions)
    (value : String) (types : List EntityType) : String :=
  if types.isEmpty then
    (smapGet d.all value).getD ((defs.find value).getD value)
  else
    match types.findSome? (fun t => smapGet (d.forType t) value) with
    | some url => url
    | none =>
      match types.findSome? (fun t => externalLookup defs t value) with
      | some url => url
      | none => value

/-- Concrete witness for C1: the profile `Foo` is registered locally with URL
`http://local/Foo` while the external provider knows a different URL
`http://ext/Foo`; resolution returns the local URL. -/
def c1Pd : PreprocessedData := { profiles := [("Foo", "http://local/Foo")] }

/-- Concrete provider for the C1 witness: generic lookup empty, `findProfile`
returns a record with URL `http://ext/Foo` for `Foo`. -/
def c1Defs : FHIRDefinitions :=
  { find := fun _ => none
    findResource := fun _ => none
    findType := fun _ => none
    findProfile := fun s => if s = "Foo" then some { url := some "http://ext/Foo" } else none
    findExtension := fun _ => none
    findValueSet := fun _ => none
    findCodeSystem := fun _ => none }

/-- Empty preprocessor table for witnesses. -/
def emptyPd : PreprocessedData := {}

/-- A provider that knows nothing, for witnesses. -/
def noneDefs : FHIRDefinitions :=
  { find := fun _ => none
    findResource := fun _ => none
    findType := fun _ => none
    findProfile := fun _ => none
    findExtension := fun _ => none
    findValueSet := fun _ => none
    findCodeSystem := fun _ => none }

/-- JavaScript `\s` on the characters that can occur inside a line (newlines
have been split away): space, tab, carriage return, vertical tab, form feed. -/
def isJsWs (c : Char) : Bool :=
  c = ' ' || c = '\t' || c = '\r' || c = '\x0b' || c = '\x0c'

/-- `line.search(/\S|$/)`: index of the first non-whitespace character, or the
line length when the line is all whitespace (the `$` alternative). -/
def firstNonWs (l : List Char) : Nat :=
  match l.findIdx? (fun c => !(isJsWs c)) with
  | some i => i
  | none => l.length

/-- `String.split('\n')` on a character list; always returns at least one line. -/
def splitNl : List Char → List (List Char)
  | [] => [[]]
  | c :: t =>
    match splitNl t, decide (c = '\n') with
    | r, true => [] :: r
    | [], false => [[c]]
    | h :: r, false => (c :: h) :: r

/-- `extractMultilineString` (`FSHImporter.ts` lines 1152-1177): strip the
triple quotes (and one newline right after the opening quotes), split into
lines, drop a whitespace-only last line, compute `minSpaces` by folding over
the lines exactly as the source loop does — a line only participates when its
first-non-space index is strictly positive, and `0` doubles as the "unset"
sentinel — then strip `minSpaces` characters from every line that is at least
that long, and rejoin. -/
def extractMultilineString (s : String) : String :=
  let cs := s.data
  let start := if cs.get? 3 = some '\n' then 4 else 3
  let body := (cs.take (cs.length - 3)).drop start
  let lines0 := splitNl body
  let lines1 :=
    if lines0.getLast?.map (fun l => l.all isJsWs) = some true then
      lines0.dropLast
    else lines0
  let minSpaces := lines1.foldl
    (fun m l =>
      let f := firstNonWs l
      if 0 < f ∧ (m = 0 ∨ f < m) then f else m) 0
  let lines2 := lines1.map (fun l => if minSpaces ≤ l.length then l.drop minSpaces else l)
  String.mk (List.intercalate ['\n'] lines2)

/-- The `Flag` enum of `FSHImporter.ts` (lines 72-77). -/
inductive FshFlag where
  | MustSupport | Summary | Modifier | Unknown
deriving DecidableEq, Repr

/-- `parseInt` on a card part: value of the leading decimal-digit prefix, or
`none` when there is no leading digit (JS would yield `NaN`). -/
def jsParseInt (s : String) : Option Nat :=
  let ds := s.data.takeWhile Char.isDigit
  if ds.isEmpty then none
  else some (ds.foldl (fun n c => n * 10 + (c.toNat - 48)) 0)

/-- `parseCard` (lines 562-568): split the CARD token on `..` with limit 2;
`min` is `parseInt` of the first part, `max` the literal second part. -/
def parseCard (card : String) : Option Nat × Option String :=
  let parts := (card.splitOn "..").take 2
  (jsParseInt ((parts.get? 0).getD ""), parts.get? 1)

/-- The rules relevant to the contains-rule visitor, as a tagged variant.
A `flag` rule carries the three booleans that `parseFlags` (lines 587-598)
may switch on. -/
inductive SdRule where
  | card (path : String) (min : Option Nat) (max : Option String)
  | flag (path : String) (mustSupport summary modifier : Bool)
  | contains (path : String) (items : List String)
deriving DecidableEq, Repr

/-- `parseFlags` (lines 587-598) on already-classified flags: each field is set
exactly when the corresponding flag occurs in the list. -/
def parseFlags (flags : List FshFlag) : Bool × Bool × Bool :=
  (flags.contains .MustSupport, flags.contains .Summary, flags.contains .Modifier)

/-- One `item` of a contains rule: its SEQUENCE name, its CARD token text and
its (possibly empty) flag list. -/
structure ContainsItem where
  name : String
  card : String
  flags : List FshFlag
deriving DecidableEq, Repr

/-- The rules synthesised for one contains-rule item: a CardRule at path
`{parentPath}[{itemName}]`, followed by a FlagRule at the same path when the
item carries flags. -/
def containsItemRules (path : String) (i : ContainsItem) : List SdRule :=
  let itemPath := path ++ "[" ++ i.name ++ "]"
  let pc := parseCard i.card
  SdRule.card itemPath pc.1 pc.2 ::
    (if i.flags.isEmpty then []
     else
       let f := parseFlags i.flags
       [SdRule.flag itemPath f.1 f.2.1 f.2.2])

/-- `visitContainsRule` (lines 811-839).  The ContainsRule object is pushed
first; the loop then pushes each item name onto the ContainsRule and appends
the synthesised CardRule and optional FlagRule, so the returned list is the
ContainsRule (holding the final item list) followed by the per-item rules. -/
def visitContainsRule (path : String) (items : List ContainsItem) : List SdRule :=
  let acc := items.foldl
    (fun (acc : List String × List SdRule) i =>
      (acc.1 ++ [i.name], acc.2 ++ containsItemRules path i))
    ([], [])
  SdRule.contains path acc.1 :: acc.2

/-- Association-list lookup for the `seenPairs` map of the metadata loops. -/
def alookup {κ : Type} [DecidableEq κ] (m : List (κ × String)) (k : κ) :
    Option String :=
  match m with
  | [] => none
  | (a, b) :: t => if a = k then some b else alookup t k

/-- One metadata line after the key/value sub-visitor ran: the classified key,
the (already resolved, where applicable) value, and the line's location. -/
structure MetaPair (κ : Type) where
  key : κ
  value : String
  loc : TextLocation
deriving DecidableEq, Repr

/-- The duplicate-metadata message of the three metadata loops:
`Metadata field '<Key>' already declared with value '<prior>'.`. -/
def dupMetadataMsg (key prior : String) : String :=
  "Metadata field " ++ sglq ++ key ++ sglq ++ " already declared with value "
    ++ sglq ++ prior ++ sglq ++ "."

/-- The shared metadata loop of `parseProfileOrExtension` (lines 289-312),
`parseInstance` (lines 335-357) and `parseValueSet` (lines 379-403): walk the
pairs; a key already in `seenPairs` yields a duplicate diagnostic at the
duplicate's location and is discarded; otherwise the pair is recorded in
`seenPairs` and applied to the entity.  Returns the updated entity, the final
`seenPairs`, and the emitted diagnostics in order. -/
def dedupMeta {κ α : Type} [DecidableEq κ] (keyName : κ → String)
    (ap : α → κ → String → α) (file : String) :
    α → List (κ × String) → List (MetaPair κ) → α × List (κ × String) × List Diag
  | a, seen, [] => (a, seen, [])
  | a, seen, p :: rest =>
    match alookup seen p.key with
    | some prior =>
      let r := dedupMeta keyName ap file a seen rest
      (r.1, r.2.1, ⟨dupMetadataMsg (keyName p.key) prior, file, p.loc⟩ :: r.2.2)
    | none =>
      dedupMeta keyName ap file (ap a p.key p.value)
        (seen ++ [(p.key, p.value)]) rest

/-- The pairs the metadata loop discards as duplicates (specification-side
mirror of the loop's control flow). -/
def dupsFrom {κ : Type} [DecidableEq κ] (seen : List (κ × String)) :
    List (MetaPair κ) → List (MetaPair κ)
  | [] => []
  | p :: rest =>
    match alookup seen p.key with
    | some _ => p :: dupsFrom seen rest
    | none => dupsFrom (seen ++ [(p.key, p.value)]) rest

/-- The pairs the metadata loop accepts (first declaration of each key). -/
def newsFrom {κ : Type} [DecidableEq κ] (seen : List (κ × String)) :
    List (MetaPair κ) → List (MetaPair κ)
  | [] => []
  | p :: rest =>
    match alookup seen p.key with
    | some _ => newsFrom seen rest
    | none => p :: newsFrom (seen ++ [(p.key, p.value)]) rest

/-- The value of the first pair with key `k`, if any. -/
def firstValOf {κ : Type} [DecidableEq κ] (ps : List (MetaPair κ)) (k : κ) :
    Option String :=
  (ps.find? (fun p => decide (p.key = k))).map MetaPair.value

/-- The occurrences of key `k` in a metadata block, in order. -/
def metaOccs {κ : Type} [DecidableEq κ] (k : κ) (ps : List (MetaPair κ)) :
    List (MetaPair κ) :=
  ps.filter (fun p => decide (p.key = k))

/-- The duplicate-metadata diagnostics produced for a metadata block that is
walked with an initially empty `seenPairs`: one per discarded pair, rendered
with the first declared value of the pair's key, at the duplicate's location. -/
def dupDiagsOf {κ : Type} [DecidableEq κ] (keyName : κ → String) (file : String)
    (ps : List (MetaPair κ)) : List Diag :=
  (dupsFrom ([] : List (κ × String)) ps).map (fun p =>
    ⟨dupMetadataMsg (keyName p.key) ((firstValOf ps p.key).getD ""), file, p.loc⟩)

/-- The `SdMetadataKey` enum (lines 51-57). -/
inductive SdMetadataKey where
  | Id | Parent | Title | Description | Unknown
deriving DecidableEq, Repr

/-- The string value of an `SdMetadataKey`, as interpolated into messages. -/
def sdKeyName : SdMetadataKey → String
  | .Id => "Id"
  | .Parent => "Parent"
  | .Title => "Title"
  | .Description => "Description"
  | .Unknown => "Unknown"

/-- Modelled from the spec: the shared `Profile` / `Extension` shape of §3
(the `fshtypes` module is not among the core sources): `id` defaults to the
name, `parent`, `title`, `description` are optional, plus the ordered rules
and the source info. -/
structure SDef where
  name : String
  id : String
  parent : Option String := none
  title : Option String := none
  description : Option String := none
  rules : List SdRule := []
  sourceInfo : SourceInfo
deriving DecidableEq, Repr

/-- The metadata assignment switch of `parseProfileOrExtension`
(lines 303-311): each known key sets its field; `Unknown` sets nothing. -/
def applySdKey (d : SDef) (k : SdMetadataKey) (v : String) : SDef :=
  match k with
  | .Id => { d with id := v }
  | .Parent => { d with parent := some v }
  | .Title => { d with title := some v }
  | .Description => { d with description := some v }
  | .Unknown => d

/-- Reading back the field a key controls (`Unknown` controls none). -/
def getSdField (d : SDef) : SdMetadataKey → Option String
  | .Id => some d.id
  | .Parent => d.parent
  | .Title => d.title
  | .Description => d.description
  | .Unknown => none

/-- `parseProfileOrExtension` (lines 284-316): walk the metadata pairs through
the deduplicating loop, then append the flattened visited rules in source
order.  Returns the updated entity and the diagnostics. -/
def parseProfileOrExtension (d : SDef) (file : String)
    (pairs : List (MetaPair SdMetadataKey)) (rules : List SdRule) :
    SDef × List Diag :=
  let r := dedupMeta sdKeyName applySdKey file d [] pairs
  ({ r.1 with rules := r.1.rules ++ rules }, r.2.2)

/-- The `InstanceMetadataKey` enum (lines 59-63). -/
inductive InstanceMetadataKey where
  | InstanceOf | Title | Unknown
deriving DecidableEq, Repr

/-- The string value of an `InstanceMetadataKey`. -/
def instanceKeyName : InstanceMetadataKey → String
  | .InstanceOf => "InstanceOf"
  | .Title => "Title"
  | .Unknown => "Unknown"

/-- A fixed-value rule as appended to an instance; the literal value is kept
as the visited token payload since no claim depends on its internal shape. -/
structure FixedValueRule where
  path : String
  fixedValue : String
  loc : TextLocation
deriving DecidableEq, Repr

/-- Modelled from the spec: the `Instance` entity of §3 (`fshtypes` is not
among the core sources): required name, `instanceOf` (unset until metadata
sets it), optional title, fixed-value rules, source info. -/
structure FshInstance where
  name : String
  instanceOf : Option String := none
  title : Option String := none
  rules : List FixedValueRule := []
  sourceInfo : SourceInfo
deriving DecidableEq, Repr

/-- The metadata assignment switch of `parseInstance` (lines 352-356). -/
def applyInstanceKey (i : FshInstance) (k : InstanceMetadataKey) (v : String) :
    FshInstance :=
  match k with
  | .InstanceOf => { i with instanceOf := some v }
  | .Title => { i with title := some v }
  | .Unknown => i

/-- Reading back the field an instance-metadata key controls. -/
def getInstanceField (i : FshInstance) : InstanceMetadataKey → Option String
  | .InstanceOf => i.instanceOf
  | .Title => i.title
  | .Unknown => none

/-- JavaScript truthiness of an optional string: `undefined` and the empty
string are falsy. -/
def jsTruthy : Option String → Bool
  | none => false
  | some s => s ≠ ""

/-- Modelled from the spec: the message of `RequiredMetadataError` (the
`errors` module is not among the core sources); per scenario S6 it mentions
the missing field and the entity type. -/
def requiredMetadataMsg (fieldName entityType name : String) : String :=
  "The " ++ sglq ++ fieldName ++ sglq ++ " metadata field is required for "
    ++ entityType ++ " " ++ name ++ "."

/-- `parseInstance` (lines 330-364): walk the metadata pairs through the
deduplicating loop; if `instanceOf` is still falsy afterwards, throw a
`RequiredMetadataError` (before any rule is appended); otherwise append the
visited fixed-value rules in source order. -/
def parseInstance (inst : FshInstance) (file : String)
    (pairs : List (MetaPair InstanceMetadataKey)) (rules : List FixedValueRule) :
    Except String FshInstance × List Diag :=
  let r := dedupMeta instanceKeyName applyInstanceKey file inst [] pairs
  let inst1 := r.1
  (if jsTruthy inst1.instanceOf then
    Except.ok { inst1 with rules := inst1.rules ++ rules }
  else
    Except.error (requiredMetadataMsg "InstanceOf" "Instance" inst.name),
   r.2.2)

/-- Generic insertion-ordered association-list `set`, as used for the
document's entity maps. -/
def alistSet {β : Type} (m : List (String × β)) (k : String) (v : β) :
    List (String × β) :=
  match m with
  | [] => [(k, v)]
  | (a, b) :: t => if a = k then (k, v) :: t else (a, b) :: alistSet t k v

/-- `visitInstance` (lines 318-328): build the instance shell with its source
info, run `parseInstance` inside a try/catch; on success insert the instance
into the document's instance map, on a thrown error log it with the
instance's `sourceInfo` and leave the document untouched. -/
def visitInstance (doc : List (String × FshInstance)) (name file : String)
    (loc : TextLocation) (pairs : List (MetaPair InstanceMetadataKey))
    (rules : List FixedValueRule) : List (String × FshInstance) × List Diag :=
  let inst : FshInstance := { name := name, sourceInfo := ⟨file, loc⟩ }
  let r := parseInstance inst file pairs rules
  match r.1 with
  | Except.ok i => (alistSet doc name i, r.2)
  | Except.error msg => (doc, r.2 ++ [⟨msg, file, loc⟩])

/-- Insertion of a string into a sorted list (ascending). -/
def insertStr (s : String) : List String → List String
  | [] => [s]
  | x :: t => if s ≤ x then s :: x :: t else x :: insertStr s t

/-- Ascending insertion sort on strings, modelling `lodash.sortBy` on a string
list: two lists have equal sorts exactly when they are permutations. -/
def sortStrings : List String → List String
  | [] => []
  | x :: t => insertStr x (sortStrings t)

/-- `sortBy(from.valueSets)`: `sortBy(undefined)` is the empty array. -/
def sortedValueSets (o : Option (List String)) : List String :=
  sortStrings (o.getD [])

/-- `FshCode` as used by the importer: the code text, optional (resolved)
system, optional display, and source info. -/
structure FshCode where
  code : String
  system : Option String := none
  display : Option String := none
  sourceInfo : SourceInfo
deriving DecidableEq, Repr

/-- The from-clause of a value-set component: optional resolved system and
optional resolved value-set list. -/
structure ValueSetComponentFrom where
  system : Option String := none
  valueSets : Option (List String) := none
deriving DecidableEq, Repr

/-- A value-set filter value: string, code, regex (pattern text), or boolean. -/
inductive VsFilterValue where
  | str (s : String)
  | code (c : FshCode)
  | regex (pattern : String)
  | bool (b : Bool)
deriving DecidableEq, Repr

/-- A value-set filter: property, (normalised) operator text, value. -/
structure ValueSetFilter where
  property : String
  operator : String
  value : VsFilterValue
deriving DecidableEq, Repr

/-- A value-set component: an (in|ex)clusion concept component or filter
component over a from-clause. -/
inductive VsComponent where
  | concept (inclusion : Bool) (fromC : ValueSetComponentFrom)
      (concepts : List FshCode)
  | filter (inclusion : Bool) (fromC : ValueSetComponentFrom)
      (filters : List ValueSetFilter)
deriving DecidableEq, Repr

/-- The match predicate of the component-merge search in `parseValueSet`
(lines 410-417): the candidate must be a concept component with the same
inclusion flag, the same (loosely equal) from-system, and the same sorted
from-value-set list. -/
def sameConceptTriple (inc : Bool) (fr : ValueSetComponentFrom) :
    VsComponent → Bool
  | .concept inc2 fr2 _ =>
    decide (inc = inc2 ∧ fr.system = fr2.system
      ∧ sortedValueSets fr.valueSets = sortedValueSets fr2.valueSets)
  | .filter _ _ _ => false

/-- `matchedComponent.concepts.push(...vsComponent.concepts)`: append the new
concepts, in source order, to the matched component. -/
def appendConcepts : VsComponent → List FshCode → VsComponent
  | .concept i f cs0, cs => .concept i f (cs0 ++ cs)
  | c, _ => c

/-- Merge the new concepts into the first matching component of the list, if
any (`valueSet.components.find(...)` finds the first match and the concepts
are pushed onto it in place). -/
def mergeConcept : List VsComponent → Bool → ValueSetComponentFrom →
    List FshCode → Option (List VsComponent)
  | [], _, _, _ => none
  | x :: t, inc, fr, cs =>
    if sameConceptTriple inc fr x then
      some (appendConcepts x cs :: t)
    else
      (mergeConcept t inc fr cs).map (x :: ·)

/-- One step of the component loop of `parseValueSet` (lines 404-426): a
concept component is merged into the first matching existing component, or
appended when no component matches; a filter component is always appended. -/
def addVsComponent (comps : List VsComponent) (c : VsComponent) :
    List VsComponent :=
  match c with
  | .concept inc fr cs =>
    match mergeConcept comps inc fr cs with
    | some merged => merged
    | none => comps ++ [c]
  | .filter _ _ _ => comps ++ [c]

/-- The whole component loop, starting from the fresh value set's empty
component list. -/
def foldVsComponents (visited : List VsComponent) : List VsComponent :=
  visited.foldl addVsComponent []

/-- The `VsMetadataKey` enum (lines 65-70). -/
inductive VsMetadataKey where
  | Id | Title | Description | Unknown
deriving DecidableEq, Repr

/-- The string value of a `VsMetadataKey`. -/
def vsKeyName : VsMetadataKey → String
  | .Id => "Id"
  | .Title => "Title"
  | .Description => "Description"
  | .Unknown => "Unknown"

/-- Modelled from the spec: the `ValueSet` entity of §3 (`fshtypes` is not
among the core sources): name, id defaulting to the name, optional title and
description, ordered components, source info. -/
structure FshValueSet where
  name : String
  id : String
  title : Option String := none
  description : Option String := none
  components : List VsComponent := []
  sourceInfo : SourceInfo
deriving DecidableEq, Repr

/-- The metadata assignment switch of `parseValueSet` (lines 396-402). -/
def applyVsKey (v : FshValueSet) (k : VsMetadataKey) (s : String) : FshValueSet :=
  match k with
  | .Id => { v with id := s }
  | .Title => { v with title := some s }
  | .Description => { v with description := some s }
  | .Unknown => v

/-- Reading back the field a value-set metadata key controls. -/
def getVsField (v : FshValueSet) : VsMetadataKey → Option String
  | .Id => some v.id
  | .Title => v.title
  | .Description => v.description
  | .Unknown => none

/-- `parseValueSet` (lines 374-427): the deduplicating metadata walk followed
by the component-merge loop over the visited components. -/
def parseValueSet (vs : FshValueSet) (file : String)
    (pairs : List (MetaPair VsMetadataKey)) (components : List VsComponent) :
    FshValueSet × List Diag :=
  let r := dedupMeta vsKeyName applyVsKey file vs [] pairs
  ({ r.1 with components := components.foldl addVsComponent r.1.components },
   r.2.2)

/-- Shorthand location for concrete witnesses. -/
def wloc (n : Nat) : TextLocation := ⟨n, 1, n, 10⟩

/-- Concrete profile shell for the C4 witness. -/
def c4Sd : SDef := { name := "P", id := "P", sourceInfo := ⟨"f", wloc 1⟩ }

/-- Concrete duplicated metadata block (Title declared twice). -/
def c4SdPairs : List (MetaPair SdMetadataKey) :=
  [⟨.Title, "T1", wloc 2⟩, ⟨.Title, "T2", wloc 3⟩]

/-- Concrete instance shell for the C4 witness. -/
def c4Inst : FshInstance := { name := "I", sourceInfo := ⟨"f", wloc 1⟩ }

/-- Concrete duplicated metadata block (InstanceOf declared twice). -/
def c4InstPairs : List (MetaPair InstanceMetadataKey) :=
  [⟨.InstanceOf, "A", wloc 2⟩, ⟨.InstanceOf, "B", wloc 3⟩]

/-- Concrete value-set shell for the C4 witness. -/
def c4Vs : FshValueSet := { name := "V", id := "V", sourceInfo := ⟨"f", wloc 1⟩ }

/-- Concrete duplicated metadata block (Id declared twice). -/
def c4VsPairs : List (MetaPair VsMetadataKey) :=
  [⟨.Id, "a", wloc 2⟩, ⟨.Id, "b", wloc 3⟩]

/-- The merge key of a component: concept components are keyed by
`(inclusion, from.system, sorted(from.valueSets))`; filter components have
no key. -/
def conceptTripleKey : VsComponent → Option (Bool × Option String × List String)
  | .concept i f _ => some (i, f.system, sortedValueSets f.valueSets)
  | .filter _ _ _ => none

/-- Two components clash when both are concept components with the same merge
triple. -/
def TripleClash (a b : VsComponent) : Prop :=
  conceptTripleKey a ≠ none ∧ conceptTripleKey a = conceptTripleKey b

/-- No two concept components of the list share a merge triple. -/
def NoDupConceptTriples (comps : List VsComponent) : Prop :=
  comps.Pairwise (fun a b => ¬TripleClash a b)

/-- Concrete code for the C2 witness. -/
def c2CodeA : FshCode := { code := "a", system := some "http://s", sourceInfo := ⟨"f", wloc 1⟩ }

/-- Second concrete code for the C2 witness. -/
def c2CodeB : FshCode := { code := "b", system := some "http://s", sourceInfo := ⟨"f", wloc 2⟩ }

/-- Existing single-component list for the C2 witness. -/
def c2Comps : List VsComponent :=
  [VsComponent.concept true ⟨some "http://s", none⟩ [c2CodeA]]

/-- Incoming concept component with the same triple for the C2 witness. -/
def c2New : VsComponent := VsComponent.concept true ⟨some "http://s", none⟩ [c2CodeB]

/-- `str.slice(1, str.length - 1)`: drop the first and last character. -/
def stripEnds (s : String) : String :=
  String.mk ((s.data.take (s.data.length - 1)).drop 1)

/-- Prefix test on character lists. -/
def startsWithChars : List Char → List Char → Bool
  | _, [] => true
  | [], _ :: _ => false
  | a :: s, b :: p => a = b && startsWithChars s p

/-- Replacement of every (leftmost, non-overlapping) occurrence of a pattern,
as a global-regex `replace` does. -/
def replaceAllChars : Nat → List Char → List Char → List Char → List Char
  | 0, s, _, _ => s
  | _, [], _, _ => []
  | f + 1, c :: t, pat, repl =>
    if startsWithChars (c :: t) pat && !pat.isEmpty then
      repl ++ replaceAllChars f ((c :: t).drop pat.length) pat repl
    else c :: replaceAllChars f t pat repl

/-- String wrapper for `replaceAllChars`. -/
def jsReplaceAll (s pat repl : String) : String :=
  String.mk (replaceAllChars s.data.length s.data pat.data repl.data)

/-- `String.split` on a plain-string separator, all pieces. -/
def splitOnCharsAux : Nat → List Char → List Char → List Char → List (List Char)
  | 0, acc, s, _ => [acc ++ s]
  | _, acc, [], _ => [acc]
  | f + 1, acc, c :: t, sep =>
    if startsWithChars (c :: t) sep && !sep.isEmpty then
      acc :: splitOnCharsAux f [] ((c :: t).drop sep.length) sep
    else splitOnCharsAux f (acc ++ [c]) t sep

/-- String wrapper for the splitter. -/
def jsSplitStr (s sep : String) : List String :=
  (splitOnCharsAux s.data.length [] s.data sep.data).map String.mk

/-- JavaScript `trim` on the whitespace the tokens can contain. -/
def jsTrim (s : String) : String :=
  String.mk (((s.data.dropWhile isJsWs).reverse.dropWhile isJsWs).reverse)

/-- `extractString` (lines 1137-1143): strip the surrounding quotes, then
unescape `\\` and `\"` (in that order, each replacing all occurrences). -/
def extractString (s : String) : String :=
  jsReplaceAll (jsReplaceAll (stripEnds s) "\\\\" "\\") "\\\"" "\""

/-- JavaScript `split(sep, 2)`: split fully, keep the first two pieces. -/
def jsSplit2 (s sep : String) : List String :=
  (jsSplitStr s sep).take 2

/-- `CODE` token plus optional display string, as handed to `visitCode`. -/
structure CodeCtx where
  raw : String
  display : Option String := none
  loc : TextLocation
deriving DecidableEq, Repr

/-- `visitCode` (lines 687-710): split the token on the first `#`; unquote a
quoted code part; resolve a non-empty system against kinds Alias, CodeSystem;
attach the optional display.  (The lexer guarantees a `#`, so the second
piece exists; an absent piece is modelled as the empty code.) -/
def visitCode (pd : PreprocessedData) (defs : FHIRDefinitions) (file : String)
    (ctx : CodeCtx) : FshCode :=
  let parts := jsSplit2 ctx.raw "#"
  let system := (parts.get? 0).getD ""
  let code0 := (parts.get? 1).getD ""
  let code :=
    if code0.data.head? = some '"' then
      jsReplaceAll (jsReplaceAll (stripEnds code0) "\\\\" "\\") "\\\"" "\""
    else code0
  { code := code
    system :=
      if system ≠ "" then
        some (normalizedValue pd defs system [.Alias, .CodeSystem])
      else none
    display := ctx.display.map extractString
    sourceInfo := ⟨file, ctx.loc⟩ }

/-- The from-clause value-set part: one SEQUENCE, or a comma-delimited token. -/
inductive VsFromValuesetCtx where
  | single (seq : String)
  | comma (raw : String)
deriving DecidableEq, Repr

/-- The from-clause of a value-set component as parsed. -/
structure VsFromCtx where
  fromSystem : Option String := none
  fromValueset : Option VsFromValuesetCtx := none
deriving DecidableEq, Repr

/-- `visitVsComponentFrom` (lines 975-1011): resolve the system against
Alias/CodeSystem and each value-set name (split on commas and trimmed when
comma-delimited) against Alias/ValueSet. -/
def visitVsComponentFrom (pd : PreprocessedData) (defs : FHIRDefinitions)
    (ctx : VsFromCtx) : ValueSetComponentFrom :=
  { system := ctx.fromSystem.map
      (fun s => normalizedValue pd defs s [.Alias, .CodeSystem])
    valueSets := ctx.fromValueset.map (fun v =>
      match v with
      | .single s => [normalizedValue pd defs s [.Alias, .ValueSet]]
      | .comma raw => (jsSplitStr raw ",").map
          (fun x => normalizedValue pd defs (jsTrim x) [.Alias, .ValueSet])) }

/-- JavaScript `String.replace` with a plain-string pattern: replace only the
first occurrence. -/
def replaceFirstChars (s pat repl : List Char) : List Char :=
  match s with
  | [] => if pat.isEmpty then repl else []
  | c :: t =>
    if startsWithChars (c :: t) pat then repl ++ (c :: t).drop pat.length
    else c :: replaceFirstChars t pat repl

/-- String wrapper for `replaceFirstChars`. -/
def replaceFirst (s pat repl : String) : String :=
  String.mk (replaceFirstChars s.data pat.data repl.data)

/-- `toLocaleLowerCase` on the ASCII range the operator tokens draw from. -/
def toLowerStr (s : String) : String :=
  String.mk (s.data.map (fun c =>
    if 'A' ≤ c ∧ c ≤ 'Z' then Char.ofNat (c.toNat + 32) else c))

/-- The operator normalisation of `visitVsFilterDefinition` (lines 1020-1024):
lower-case, then fold the official spelling `descendant` to `descendent`
(first occurrence, as JavaScript `replace` does). -/
def normalizeVsOperator (raw : String) : String :=
  replaceFirst (toLowerStr raw) "descendant" "descendent"

/-- The filter-value alternatives of the grammar, in the priority order
`visitVsFilterValue` checks them. -/
inductive VsFilterValueCtx where
  | code (c : CodeCtx)
  | regex (raw : String)
  | str (raw : String)
  | kwTrue
  | kwFalse
deriving DecidableEq, Repr

/-- `visitVsFilterValue` (lines 1065-1082): code, regex pattern with the
slashes stripped, unescaped string, or boolean keyword. -/
def visitVsFilterValue (pd : PreprocessedData) (defs : FHIRDefinitions)
    (file : String) : VsFilterValueCtx → VsFilterValue
  | .code c => .code (visitCode pd defs file c)
  | .regex raw => .regex (stripEnds raw)
  | .str raw => .str (extractString raw)
  | .kwTrue => .bool true
  | .kwFalse => .bool false

/-- The filter errors thrown by `visitVsFilterDefinition`. -/
inductive VsFilterError where
  | missingValue (op : String)
  | valueType (op expected : String)
  | operatorErr (opText : String)
deriving DecidableEq, Repr

/-- Modelled from the spec: the messages of the three filter error classes
(the `errors` module is not among the core sources); only their identity
matters to the claims. -/
def vsFilterErrorMsg : VsFilterError → String
  | .missingValue op => "A value is required for the " ++ op ++ " filter operator"
  | .valueType op expected =>
      "The value of the " ++ op ++ " filter operator must be of type " ++ expected
  | .operatorErr opText => "Unknown value set filter operator " ++ opText

/-- One `vsFilterDefinition`: property SEQUENCE, raw operator token, optional
value, and the definition's location. -/
structure VsFilterDefCtx where
  property : String
  operatorText : String
  value : Option VsFilterValueCtx := none
  loc : TextLocation
deriving DecidableEq, Repr

/-- `visitVsFilterDefinition` (lines 1018-1063): normalise the operator; a
missing value is an error unless the operator is `exists` (in which case the
value defaults to `true`); then type-check the value against the operator;
unknown operators are an error carrying the raw operator text. -/
def visitVsFilterDefinition (pd : PreprocessedData) (defs : FHIRDefinitions)
    (file : String) (ctx : VsFilterDefCtx) : Except VsFilterError ValueSetFilter :=
  let operator := normalizeVsOperator ctx.operatorText
  if ctx.value = none ∧ operator ≠ "exists" then
    Except.error (.missingValue operator)
  else
    let value :=
      match ctx.value with
      | some v => visitVsFilterValue pd defs file v
      | none => .bool true
    if operator = "=" ∨ operator = "in" ∨ operator = "not-in" then
      match value with
      | .str s => Except.ok ⟨ctx.property, operator, .str s⟩
      | _ => Except.error (.valueType operator "string")
    else if operator = "is-a" ∨ operator = "descendent-of"
        ∨ operator = "is-not-a" ∨ operator = "generalizes" then
      match value with
      | .code c => Except.ok ⟨ctx.property, operator, .code c⟩
      | _ => Except.error (.valueType operator "code")
    else if operator = "regex" then
      match value with
      | .regex r => Except.ok ⟨ctx.property, operator, .regex r⟩
      | _ => Except.error (.valueType operator "regex")
    else if operator = "exists" then
      match value with
      | .bool b => Except.ok ⟨ctx.property, operator, .bool b⟩
      | _ => Except.error (.valueType operator "boolean")
    else
      Except.error (.operatorErr ctx.operatorText)

/-- Match of the separator regex of `COMMA_DELIMITED_CODES` splitting
(`split(/\s*,\s+#/)`, line 902) at the head of the list: optional whitespace,
a comma, mandatory whitespace, then `#`; returns the remainder after the
separator. -/
def matchCommaSep (l : List Char) : Option (List Char) :=
  let w1 := firstNonWs l
  match l.drop w1 with
  | ',' :: t2 =>
    let w2 := firstNonWs t2
    if 1 ≤ w2 then
      match t2.drop w2 with
      | '#' :: rest => some rest
      | _ => none
    else none
  | _ => none

/-- Left-to-right scan splitting on the comma separator (leftmost matches, as
JavaScript `split` finds them). -/
def splitCommaHashAux : Nat → List Char → List Char → List (List Char)
  | 0, acc, _ => [acc]
  | _, acc, [] => [acc]
  | fuel + 1, acc, c :: t =>
    match matchCommaSep (c :: t) with
    | some rest => acc :: splitCommaHashAux fuel [] rest
    | none => splitCommaHashAux fuel (acc ++ [c]) t

/-- `raw.split(/\s*,\s+#/)` as a string function. -/
def jsSplitCommaHash (s : String) : List String :=
  (splitCommaHashAux (s.data.length + 1) [] s.data).map (fun cs => String.mk cs)

/-- `code.match(/\s+"/)?.index` (line 916): the start index of the first
whitespace run that is immediately followed by a double quote. -/
def matchWsQuoteAux : List Char → Nat → Option Nat
  | [], _ => none
  | c :: t, i =>
    if isJsWs c then
      (if ((c :: t).drop (firstNonWs (c :: t))).head? = some '"' then some i
       else matchWsQuoteAux t (i + 1))
    else matchWsQuoteAux t (i + 1)

/-- String wrapper for `matchWsQuoteAux`. -/
def matchWsQuoteIdx (s : String) : Option Nat :=
  matchWsQuoteAux s.data 0

/-- Maximal run of quoted-code units (`[^\s\\"]`, `\"`, or `\\`), returning
the consumed characters and the remainder. -/
def parseUnitsMax : List Char → List Char × List Char
  | [] => ([], [])
  | '\\' :: '"' :: t =>
    let r := parseUnitsMax t
    ('\\' :: '"' :: r.1, r.2)
  | '\\' :: '\\' :: t =>
    let r := parseUnitsMax t
    ('\\' :: '\\' :: r.1, r.2)
  | c :: t =>
    if c = '"' || c = '\\' || isJsWs c then ([], c :: t)
    else
      let r := parseUnitsMax t
      (c :: r.1, r.2)

/-- The `(\s unit+)*` loop of the quoted-chunk regex: repeatedly consume one
whitespace character followed by a non-empty unit run. -/
def parseWsUnitsLoop : Nat → List Char → List Char × List Char
  | 0, l => ([], l)
  | _, [] => ([], [])
  | fuel + 1, c :: t =>
    if isJsWs c then
      (let u := parseUnitsMax t
       if u.1.isEmpty then ([], c :: t)
       else
         let m := parseWsUnitsLoop fuel u.2
         (c :: (u.1 ++ m.1), m.2))
    else ([], c :: t)

/-- Match of the quoted-chunk regex
`"([^\s\\"]|\\"|\\\\)+(\s([^\s\\"]|\\"|\\\\)+)*"` at the head of the list:
returns the inner text (escapes preserved, quotes stripped) and the rest. -/
def matchChunkAt : List Char → Option (List Char × List Char)
  | '"' :: t =>
    let u := parseUnitsMax t
    if u.1.isEmpty then none
    else
      let m := parseWsUnitsLoop u.2.length u.2
      match m.2 with
      | '"' :: rest => some (u.1 ++ m.1, rest)
      | _ => none
  | _ => none

/-- Global scan collecting every quoted chunk, as `match(..., 'g')` does. -/
def findChunksAux : Nat → List Char → List (List Char)
  | 0, _ => []
  | _, [] => []
  | fuel + 1, c :: t =>
    match matchChunkAt (c :: t) with
    | some (inner, rest) => inner :: findChunksAux fuel rest
    | none => findChunksAux fuel t

/-- All quoted chunks of a character list. -/
def findQuotedChunks (l : List Char) : List (List Char) :=
  findChunksAux l.length l

/-- The code-list parsing of `visitVsConceptComponent` (lines 898-932): split
the token on the comma separators, strip the leading `#` of the first piece,
and for each piece extract the code part and the optional description —
during which a whitespace-quote boundary at index 0 is falsy in the source's
`if (codeEnd)` test, so such a piece is trimmed whole. -/
def parseCommaCodes (file raw : String) (rawLoc : TextLocation)
    (system : Option String) : List FshCode :=
  let codes0 := jsSplitCommaHash raw
  let codes :=
    match codes0 with
    | [] => []
    | c0 :: rest => String.mk (c0.data.drop 1) :: rest
  codes.map (fun code =>
    let cp : String × Option String :=
      if code.data.head? = some '"' then
        match findQuotedChunks code.data with
        | q0 :: q1 :: _ => (String.mk q0, some (String.mk q1))
        | [q0] => (String.mk q0, none)
        | [] => ("", none)
      else
        match matchWsQuoteIdx code with
        | some idx =>
          if idx = 0 then (jsTrim code, none)
          else
            (String.mk (code.data.take idx),
             some (stripEnds (jsTrim (String.mk (code.data.drop idx)))))
        | none => (jsTrim code, none)
    { code := cp.1, system := system, display := cp.2,
      sourceInfo := ⟨file, rawLoc⟩ })

/-- The body alternatives of a `vsConceptComponent`: one code, or a
comma-delimited code list (with the list token's own location). -/
inductive VsConceptBody where
  | single (c : CodeCtx)
  | commaCodes (raw : String) (rawLoc : TextLocation)
deriving DecidableEq, Repr

/-- A `vsConceptComponent` parse context. -/
structure VsConceptCtx where
  fromCl : Option VsFromCtx := none
  body : Option VsConceptBody := none
  loc : TextLocation
deriving DecidableEq, Repr

/-- Diagnostic for a concept with a system both on the code and in `from`. -/
def conceptMultiSystemMsg (code : String) : String :=
  "Concept " ++ code ++ " specifies system multiple times"

/-- Diagnostic for a concept with no system at all. -/
def conceptNeedsSystemMsg (code : String) : String :=
  "Concept " ++ code
    ++ " must include system as \"SYSTEM#CONCEPT\" or \"#CONCEPT from system SYSTEM\""

/-- Diagnostic for a concept list without a from-system. -/
def listNeedsSystemMsg : String :=
  "System is required when listing concepts in a value set component"

/-- Diagnostic for a filter list without a from-system. -/
def filterNeedsSystemMsg : String :=
  "System is required when filtering a value set component"

/-- The from-clause of a concept component: visited when present, empty
otherwise (lines 872-874). -/
def conceptFromOf (pd : PreprocessedData) (defs : FHIRDefinitions)
    (ctx : VsConceptCtx) : ValueSetComponentFrom :=
  match ctx.fromCl with
  | some f => visitVsComponentFrom pd defs f
  | none => {}

/-- `visitVsConceptComponent` (lines 870-941).  For a single code: error and
skip when the system is given twice or not at all, otherwise adopt the
system from whichever side provides it.  For a comma-delimited list: a
from-system is required (else error and no concepts); with a system, parse
the listed codes.  The from-clause is returned in all cases. -/
def visitVsConceptComponent (pd : PreprocessedData) (defs : FHIRDefinitions)
    (file : String) (ctx : VsConceptCtx) :
    (List FshCode × ValueSetComponentFrom) × List Diag :=
  let fr := conceptFromOf pd defs ctx
  match ctx.body with
  | some (VsConceptBody.single cctx) =>
    let singleCode := visitCode pd defs file cctx
    if jsTruthy singleCode.system && jsTruthy fr.system then
      (([], fr), [⟨conceptMultiSystemMsg singleCode.code, file, ctx.loc⟩])
    else if jsTruthy singleCode.system then
      (([singleCode], { fr with system := singleCode.system }), [])
    else if jsTruthy fr.system then
      (([{ singleCode with system := fr.system }], fr), [])
    else
      (([], fr), [⟨conceptNeedsSystemMsg singleCode.code, file, ctx.loc⟩])
  | some (VsConceptBody.commaCodes raw rawLoc) =>
    if jsTruthy fr.system then
      ((parseCommaCodes file raw rawLoc fr.system, fr), [])
    else
      (([], fr), [⟨listNeedsSystemMsg, file, ctx.loc⟩])
  | none => (([], fr), [])

/-- A `vsFilterComponent` parse context. -/
structure VsFilterCompCtx where
  fromCl : Option VsFromCtx := none
  filterList : Option (List VsFilterDefCtx) := none
  loc : TextLocation
deriving DecidableEq, Repr

/-- The from-clause of a filter component: visited when present, empty
otherwise (lines 947-949). -/
def filterFromOf (pd : PreprocessedData) (defs : FHIRDefinitions)
    (ctx : VsFilterCompCtx) : ValueSetComponentFrom :=
  match ctx.fromCl with
  | some f => visitVsComponentFrom pd defs f
  | none => {}

/-- `visitVsFilterComponent` (lines 943-973).  A filter list requires a truthy
from-system (else one error and no filters).  Each filter definition is
visited inside a try/catch: a successful visit is appended, a thrown filter
error is logged at the definition's location and that filter is skipped. -/
def visitVsFilterComponent (pd : PreprocessedData) (defs : FHIRDefinitions)
    (file : String) (ctx : VsFilterCompCtx) :
    (List ValueSetFilter × ValueSetComponentFrom) × List Diag :=
  let fr := filterFromOf pd defs ctx
  match ctx.filterList with
  | some fds =>
    if jsTruthy fr.system then
      ((fds.filterMap
          (fun fd => (visitVsFilterDefinition pd defs file fd).toOption), fr),
       fds.filterMap (fun fd =>
         match visitVsFilterDefinition pd defs file fd with
         | Except.error e => some ⟨vsFilterErrorMsg e, file, fd.loc⟩
         | Except.ok _ => none))
    else
      (([], fr), [⟨filterNeedsSystemMsg, file, ctx.loc⟩])
  | none => (([], fr), [])

/-- The body of a `vsComponent`: concept or filter component. -/
inductive VsComponentBodyCtx where
  | concept (c : VsConceptCtx)
  | filter (f : VsFilterCompCtx)
deriving DecidableEq, Repr

/-- A `vsComponent` parse context: optional `exclude` keyword plus body. -/
structure VsComponentCtx where
  exclude : Bool
  body : VsComponentBodyCtx
deriving DecidableEq, Repr

/-- `visitVsComponent` (lines 853-868): inclusion is the absence of
`exclude`; build the concept or filter component from the visited parts. -/
def visitVsComponent (pd : PreprocessedData) (defs : FHIRDefinitions)
    (file : String) (ctx : VsComponentCtx) : VsComponent × List Diag :=
  let inclusion := !ctx.exclude
  match ctx.body with
  | .concept c =>
    let r := visitVsConceptComponent pd defs file c
    (VsComponent.concept inclusion r.1.2 r.1.1, r.2)
  | .filter f =>
    let r := visitVsFilterComponent pd defs file f
    (VsComponent.filter inclusion r.1.2 r.1.1, r.2)

/-- The component half of `parseValueSet` applied to parse contexts: visit
each component, then run the merge loop over the visited components
(lines 404-426); the diagnostics are those of the visits, in order. -/
def visitValueSetComponents (pd : PreprocessedData) (defs : FHIRDefinitions)
    (file : String) (ctxs : List VsComponentCtx) :
    List VsComponent × List Diag :=
  let visited := ctxs.map (visitVsComponent pd defs file)
  (foldVsComponents (visited.map Prod.fst), (visited.map Prod.snd).flatten)

/-- A value-set component context whose single concept `#a` carries no system
anywhere: it triggers the missing-system diagnostic. -/
def c9Ctx : VsComponentCtx :=
  ⟨false, .concept ⟨none, some (.single ⟨"#a", none, wloc 2⟩), wloc 2⟩⟩

/-- Filter component context for the C9 witness: a valid `exists` filter
followed by an `in` filter written without its (required) value. -/
def c9FilterCtx : VsFilterCompCtx :=
  { fromCl := some { fromSystem := some "http://s" }
    filterList := some [⟨"concept", "exists", some .kwTrue, wloc 4⟩,
                        ⟨"concept", "in", none, wloc 5⟩]
    loc := wloc 1 }

/-- If every element of a list maps to `none`, `findSome?` finds nothing. -/
theorem findSome?_eq_none_of_all {α β : Type} (l : List α) (f : α → Option β)
    (h : ∀ x ∈ l, f x = none) : l.findSome? f = none := by
  induction l with
  | nil => rfl
  | cons a t ih =>
    rw [List.findSome?_cons, h a (by simp)]
    exact ih (fun x hx => h x (by simp [hx]))

/-- C1.  For every symbol and every non-empty list of allowed entity kinds, if
the symbol is registered in the preprocessor's table for one of those kinds
(i.e. the ordered scan of the local per-kind tables hits, with value `u`), and
the external provider would also produce a record with a different non-empty
URL `uext` for those kinds, resolution returns the local URL `u`: the local
tables are consulted in caller-supplied kind order and exhausted before the
external provider is consulted at all. -/
theorem C1_local_over_external (d : PreprocessedData) (defs : FHIRDefinitions)
    (value : String) (types : List EntityType) (u uext : String)
    (hloc : types.findSome? (fun t => smapGet (d.forType t) value) = some u)
    (hext : types.findSome? (fun t => externalLookup defs t value) = some uext)
    (_hne : uext ≠ u) :
    normalizedValue d defs value types = u := by
  cases types with
  | nil => simp [List.findSome?] at hloc
  | cons a l =>
    simp only [normalizedValue]
    rw [if_neg (by simp : ¬(List.isEmpty (a :: l) = true)), hloc]

/-- Witness for C1 at a concrete input. -/
theorem C1_local_over_external_witness :
    normalizedValue c1Pd c1Defs "Foo" [EntityType.Profile] = "http://local/Foo" :=
  C1_local_over_external c1Pd c1Defs "Foo" [EntityType.Profile]
    "http://local/Foo" "http://ext/Foo" (by rfl) (by rfl) (by decide)

/-- C6.  If resolution finds no entry in any consulted local per-kind table and
the external-provider consultation performed by resolution yields no record
with a non-empty URL (for a non-empty kind list this is the per-kind lookups
for each allowed kind; for an empty kind list resolution instead consults the
global table and the provider's generic `find`), then resolution returns the
input symbol unchanged. -/
theorem C6_unresolved_symbol_passthrough (d : PreprocessedData)
    (defs : FHIRDefinitions) (value : String) (types : List EntityType)
    (hloc : ∀ t ∈ types, smapGet (d.forType t) value = none)
    (hext : ∀ t ∈ types, externalLookup defs t value = none)
    (hempty : types = [] → smapGet d.all value = none ∧ defs.find value = none) :
    normalizedValue d defs value types = value := by
  cases types with
  | nil =>
    have h := hempty rfl
    simp [normalizedValue, h.1, h.2]
  | cons a l =>
    have h1 : (a :: l).findSome? (fun t => smapGet (d.forType t) value) = none :=
      findSome?_eq_none_of_all _ _ hloc
    have h2 : (a :: l).findSome? (fun t => externalLookup defs t value) = none :=
      findSome?_eq_none_of_all _ _ hext
    simp [normalizedValue, h1, h2]

/-- Witness for C6 at a concrete input: the unknown symbol `Zed` is echoed. -/
theorem C6_unresolved_symbol_passthrough_witness :
    normalizedValue emptyPd noneDefs "Zed" [EntityType.Alias, EntityType.Profile] = "Zed" :=
  C6_unresolved_symbol_passthrough emptyPd noneDefs "Zed"
    [EntityType.Alias, EntityType.Profile]
    (by intro t ht; fin_cases ht <;> rfl)
    (by intro t ht; fin_cases ht <;> rfl)
    (by intro h; cases h)

/-- C8 (behaviour of the code at the failing input).  Registering `A` under
kind `Alias` with URL `http://u1` and then again with the different URL
`http://u2` leaves the state unchanged — the first registration wins and the
tables are not overwritten — and re-registering the identical pair is a no-op;
but `register` contains no logging call at all (its conflict branches hold
only an `// error` comment), so no diagnostic is recorded, contradicting the
claim and the spec's stated conflict policy. -/
theorem C8_register_conflict_silent :
    (PreprocessedData.register
        (PreprocessedData.register {} "A" "http://u1" .Alias)
        "A" "http://u2" .Alias)
      = PreprocessedData.register {} "A" "http://u1" .Alias
    ∧ smapGet (PreprocessedData.register
        (PreprocessedData.register {} "A" "http://u1" .Alias)
        "A" "http://u2" .Alias).aliases "A" = some "http://u1"
    ∧ (PreprocessedData.register
        (PreprocessedData.register {} "A" "http://u1" .Alias)
        "A" "http://u1" .Alias)
      = PreprocessedData.register {} "A" "http://u1" .Alias := by
  decide

/-- C7 (behaviour of the code at the failing input).  For the multiline token
`"""ab\n  c"""` the first line `ab` has a non-space character in column one,
so by the claim the stripped indentation K must be 0 and the result
`ab\n  c`.  The source's fold ignores lines whose first-non-space index is 0
when computing the minimum, computes `minSpaces = 2`, and maps `ab` (length 2)
to the empty string: the result is `\nc`. -/
theorem C7_flush_left_line_not_counted :
    extractMultilineString "\"\"\"ab\n  c\"\"\"" = "\nc"
      ∧ "\nc" ≠ "ab\n  c" := by
  decide

/-- Characterisation of the accumulating fold inside `visitContainsRule`. -/
theorem visitContainsRule_foldl (path : String) (items : List ContainsItem)
    (ns : List String) (rs : List SdRule) :
    items.foldl
      (fun (acc : List String × List SdRule) i =>
        (acc.1 ++ [i.name], acc.2 ++ containsItemRules path i))
      (ns, rs)
      = (ns ++ items.map ContainsItem.name,
         rs ++ items.flatMap (containsItemRules path)) := by
  induction items generalizing ns rs with
  | nil => simp
  | cons i t ih =>
    simp only [List.foldl_cons, List.map_cons, List.flatMap_cons, ih,
      List.append_assoc, List.singleton_append]

/-- Lengths of the per-item rule blocks. -/
theorem containsItemRules_length (path : String) (i : ContainsItem) :
    (containsItemRules path i).length = if i.flags.isEmpty then 1 else 2 := by
  by_cases h : i.flags.isEmpty <;> simp [containsItemRules, h]

/-- C3.  The contains-rule visitor returns the ContainsRule first, immediately
followed, in item declaration order, by one synthesised CardRule per item and,
only for items carrying flags, one synthesised FlagRule, each rooted at
`{parentPath}[{itemName}]`; hence a ContainsRule whose items are all flagless
yields `1 + n` rules (three for two items) and one whose items all carry flags
yields `1 + 2n` rules (five for two items). -/
theorem C3_contains_rule_expansion (path : String) (items : List ContainsItem) :
    visitContainsRule path items
        = SdRule.contains path (items.map ContainsItem.name)
          :: items.flatMap (containsItemRules path)
      ∧ ((∀ i ∈ items, i.flags = []) →
          (visitContainsRule path items).length = 1 + items.length)
      ∧ ((∀ i ∈ items, i.flags ≠ []) →
          (visitContainsRule path items).length = 1 + 2 * items.length) := by
  have hshape : visitContainsRule path items
      = SdRule.contains path (items.map ContainsItem.name)
        :: items.flatMap (containsItemRules path) := by
    simp [visitContainsRule, visitContainsRule_foldl]
  refine ⟨hshape, ?_, ?_⟩
  · intro hfl
    rw [hshape]
    simp only [List.length_cons]
    have : ∀ l : List ContainsItem, (∀ i ∈ l, i.flags = []) →
        (l.flatMap (containsItemRules path)).length = l.length := by
      intro l
      induction l with
      | nil => intro; simp
      | cons a t ih =>
        intro h
        simp only [List.flatMap_cons, List.length_append,
          containsItemRules_length, h a (by simp), List.isEmpty_nil,
          if_true, ih (fun i hi => h i (by simp [hi])), List.length_cons]
        omega
    rw [this items hfl]
    omega
  · intro hfl
    rw [hshape]
    simp only [List.length_cons]
    have : ∀ l : List ContainsItem, (∀ i ∈ l, i.flags ≠ []) →
        (l.flatMap (containsItemRules path)).length = 2 * l.length := by
      intro l
      induction l with
      | nil => intro; simp
      | cons a t ih =>
        intro h
        have ha : a.flags.isEmpty = false := by
          cases hf : a.flags with
          | nil => exact absurd hf (h a (by simp))
          | cons x xs => simp
        simp only [List.flatMap_cons, List.length_append,
          containsItemRules_length, ha, Bool.false_eq_true, if_false,
          ih (fun i hi => h i (by simp [hi])), List.length_cons]
        omega
    rw [this items hfl]
    omega

/-- Witness for C3 at concrete inputs: two flagless items yield exactly three
rules, two flagged items yield exactly five. -/
theorem C3_contains_rule_expansion_witness :
    (visitContainsRule "extension"
        [⟨"a", "0..1", []⟩, ⟨"b", "1..*", []⟩]).length = 3
      ∧ (visitContainsRule "extension"
        [⟨"a", "0..1", [.MustSupport]⟩, ⟨"b", "1..*", [.Modifier]⟩]).length = 5 :=
  ⟨(C3_contains_rule_expansion "extension"
      [⟨"a", "0..1", []⟩, ⟨"b", "1..*", []⟩]).2.1 (by decide),
   (C3_contains_rule_expansion "extension"
      [⟨"a", "0..1", [.MustSupport]⟩, ⟨"b", "1..*", [.Modifier]⟩]).2.2 (by decide)⟩

/-- Lookup is unchanged by appending a pair with a different key. -/
theorem alookup_append_single_ne {κ : Type} [DecidableEq κ]
    (m : List (κ × String)) (k j : κ) (v : String) (h : j ≠ k) :
    alookup (m ++ [(j, v)]) k = alookup m k := by
  induction m with
  | nil => simp [alookup, h]
  | cons a t ih =>
    by_cases hk : a.1 = k <;> simp [alookup, hk, ih]

/-- Appending a pair with a fresh key makes it visible. -/
theorem alookup_append_single_same {κ : Type} [DecidableEq κ]
    (m : List (κ × String)) (k : κ) (v : String) (h : alookup m k = none) :
    alookup (m ++ [(k, v)]) k = some v := by
  induction m with
  | nil => simp [alookup]
  | cons a t ih =>
    by_cases hk : a.1 = k
    · simp [alookup, hk] at h
    · simp [alookup, hk] at h ⊢
      exact ih h

/-- A key found in a map stays found after appending. -/
theorem alookup_append_of_some {κ : Type} [DecidableEq κ]
    (m m2 : List (κ × String)) (k : κ) (v : String) (h : alookup m k = some v) :
    alookup (m ++ m2) k = some v := by
  induction m with
  | nil => simp [alookup] at h
  | cons a t ih =>
    by_cases hk : a.1 = k <;> simp_all [alookup]

/-- The entity component of `dedupMeta` is the fold of `ap` over the accepted
pairs. -/
theorem dedupMeta_fst {κ α : Type} [DecidableEq κ] (keyName : κ → String)
    (ap : α → κ → String → α) (file : String) :
    ∀ (ps : List (MetaPair κ)) (a : α) (seen : List (κ × String)),
      (dedupMeta keyName ap file a seen ps).1
        = (newsFrom seen ps).foldl (fun a p => ap a p.key p.value) a := by
  intro ps
  induction ps with
  | nil => intro a seen; rfl
  | cons p rest ih =>
    intro a seen
    cases h : alookup seen p.key with
    | some prior => simp [dedupMeta, newsFrom, h, ih]
    | none => simp [dedupMeta, newsFrom, h, ih]

/-- The diagnostics of `dedupMeta` are exactly the discarded pairs, rendered
with the prior value of their key: the value already in `seenPairs` when the
walk began, or else the first value of the key within the walked pairs. -/
theorem dedupMeta_diags {κ α : Type} [DecidableEq κ] (keyName : κ → String)
    (ap : α → κ → String → α) (file : String) :
    ∀ (ps : List (MetaPair κ)) (a : α) (seen : List (κ × String)),
      (dedupMeta keyName ap file a seen ps).2.2
        = (dupsFrom seen ps).map (fun p =>
            ⟨dupMetadataMsg (keyName p.key)
              (((alookup seen p.key).orElse (fun _ => firstValOf ps p.key)).getD ""),
             file, p.loc⟩) := by
  intro ps
  induction ps with
  | nil => intro a seen; rfl
  | cons p rest ih =>
    intro a seen
    cases h : alookup seen p.key with
    | some prior =>
      simp only [dedupMeta, h, dupsFrom, List.map_cons]
      congr 1
      rw [ih]
      apply List.map_congr_left
      intro q _
      congr 2
      by_cases hq : q.key = p.key
      · rw [hq, h]
        simp [Option.some_orElse']
      · cases hs : alookup seen q.key with
        | none =>
          simp only [hs, Option.none_orElse']
          congr 1
          simp [firstValOf, List.find?_cons,
            show decide (p.key = q.key) = false by simp [Ne.symm hq]]
        | some w => simp [hs, Option.some_orElse']
    | none =>
      simp only [dedupMeta, h, dupsFrom]
      rw [ih]
      apply List.map_congr_left
      intro q _
      congr 2
      by_cases hq : q.key = p.key
      · rw [hq, alookup_append_single_same seen p.key p.value h, h]
        simp [Option.some_orElse', Option.none_orElse', firstValOf, List.find?_cons]
      · rw [alookup_append_single_ne seen q.key p.key p.value (Ne.symm hq)]
        cases hs : alookup seen q.key with
        | none =>
          simp only [hs, Option.none_orElse']
          congr 1
          simp [firstValOf, List.find?_cons,
            show decide (p.key = q.key) = false by simp [Ne.symm hq]]
        | some w => simp [hs, Option.some_orElse']

/-- When the key is already in `seenPairs`, every occurrence of it is
discarded as a duplicate. -/
theorem dupsFrom_filter_of_some {κ : Type} [DecidableEq κ] (k : κ) :
    ∀ (ps : List (MetaPair κ)) (seen : List (κ × String)) (v : String),
      alookup seen k = some v →
      (dupsFrom seen ps).filter (fun p => decide (p.key = k))
        = ps.filter (fun p => decide (p.key = k)) := by
  intro ps
  induction ps with
  | nil => intro seen v h; rfl
  | cons p rest ih =>
    intro seen v h
    cases hp : alookup seen p.key with
    | some w =>
      by_cases hk : p.key = k
      · subst hk
        simp [dupsFrom, hp, List.filter_cons, ih seen v h]
      · simp [dupsFrom, hp, List.filter_cons, hk, ih seen v h]
    | none =>
      have hk : p.key ≠ k := by
        intro he; rw [he, h] at hp; cases hp
      simp only [dupsFrom, hp]
      rw [ih (seen ++ [(p.key, p.value)]) v
        (by rw [alookup_append_single_ne seen k p.key p.value hk]; exact h)]
      simp [List.filter_cons, hk]

/-- When the key is not yet in `seenPairs`, the discarded occurrences of it
are exactly all occurrences after the first. -/
theorem dupsFrom_filter_of_none {κ : Type} [DecidableEq κ] (k : κ) :
    ∀ (ps : List (MetaPair κ)) (seen : List (κ × String)),
      alookup seen k = none →
      (dupsFrom seen ps).filter (fun p => decide (p.key = k))
        = (ps.filter (fun p => decide (p.key = k))).drop 1 := by
  intro ps
  induction ps with
  | nil => intro seen h; rfl
  | cons p rest ih =>
    intro seen h
    cases hp : alookup seen p.key with
    | some w =>
      have hk : p.key ≠ k := by
        intro he; rw [he, h] at hp; cases hp
      simp [dupsFrom, hp, List.filter_cons, hk, ih seen h]
    | none =>
      by_cases hk : p.key = k
      · subst hk
        simp only [dupsFrom, hp, List.filter_cons, decide_eq_true rfl]
        rw [dupsFrom_filter_of_some p.key rest (seen ++ [(p.key, p.value)]) p.value
          (alookup_append_single_same seen p.key p.value hp)]
        simp
      · simp only [dupsFrom, hp]
        rw [ih (seen ++ [(p.key, p.value)])
          (by rw [alookup_append_single_ne seen k p.key p.value hk]; exact h)]
        simp [List.filter_cons, hk]

/-- The accepted pairs never repeat a key of `seenPairs`, and their keys are
pairwise distinct. -/
theorem newsFrom_nodup {κ : Type} [DecidableEq κ] :
    ∀ (ps : List (MetaPair κ)) (seen : List (κ × String)),
      ((newsFrom seen ps).map MetaPair.key).Nodup
        ∧ ∀ q ∈ newsFrom seen ps, alookup seen q.key = none := by
  intro ps
  induction ps with
  | nil => intro seen; exact ⟨List.nodup_nil, by intro q hq; cases hq⟩
  | cons p rest ih =>
    intro seen
    cases hp : alookup seen p.key with
    | some w =>
      simpa only [newsFrom, hp] using ih seen
    | none =>
      have hrest := ih (seen ++ [(p.key, p.value)])
      constructor
      · simp only [newsFrom, hp, List.map_cons, List.nodup_cons]
        refine ⟨?_, hrest.1⟩
        intro hmem
        obtain ⟨q, hq, hqk⟩ := List.exists_of_mem_map hmem
        have := hrest.2 q hq
        rw [hqk, alookup_append_single_same seen p.key p.value hp] at this
        cases this
      · intro q hq
        simp only [newsFrom, hp, List.mem_cons] at hq
        cases hq with
        | inl he => rw [he]; exact hp
        | inr hm =>
          have := hrest.2 q hm
          by_cases hqk : q.key = p.key
          · rw [hqk, alookup_append_single_same seen p.key p.value hp] at this
            cases this
          · rw [alookup_append_single_ne seen q.key p.key p.value
              (fun he => hqk he.symm)] at this
            exact this

/-- The first accepted pair with key `k` is the first occurrence of `k`
overall (provided `k` is not in the initial `seenPairs`). -/
theorem newsFrom_find_of_none {κ : Type} [DecidableEq κ] (k : κ) :
    ∀ (ps : List (MetaPair κ)) (seen : List (κ × String)),
      alookup seen k = none →
      (newsFrom seen ps).find? (fun p => decide (p.key = k))
        = ps.find? (fun p => decide (p.key = k)) := by
  intro ps
  induction ps with
  | nil => intro seen h; rfl
  | cons p rest ih =>
    intro seen h
    cases hp : alookup seen p.key with
    | some w =>
      have hk : p.key ≠ k := by
        intro he; rw [he, h] at hp; cases hp
      simp only [newsFrom, hp, List.find?_cons]
      rw [ih seen h]
      simp [List.find?_cons, show decide (p.key = k) = false by simp [hk]]
    | none =>
      by_cases hk : p.key = k
      · subst hk
        simp [newsFrom, hp, List.find?_cons]
      · simp only [newsFrom, hp, List.find?_cons,
          show decide (p.key = k) = false by simp [hk], Bool.false_eq_true]
        exact ih (seen ++ [(p.key, p.value)])
          (by rw [alookup_append_single_ne seen k p.key p.value hk]; exact h)

/-- If no pair has key `k`, `find?` fails. -/
theorem find?_key_none_of_not_mem {κ : Type} [DecidableEq κ] (k : κ)
    (l : List (MetaPair κ)) (h : k ∉ l.map MetaPair.key) :
    l.find? (fun p => decide (p.key = k)) = none := by
  induction l with
  | nil => rfl
  | cons p t ih =>
    simp only [List.map_cons, List.mem_cons] at h
    push_neg at h
    simp only [List.find?_cons,
      show decide (p.key = k) = false by simp [Ne.symm h.1], Bool.false_eq_true]
    exact ih h.2

/-- Folding the apply function over pairs that never mention `k` leaves the
`k` field unchanged. -/
theorem foldl_apply_get_not_mem {κ α : Type} [DecidableEq κ]
    (get : α → κ → Option String) (ap : α → κ → String → α) (k : κ)
    (hother : ∀ (a : α) (k' : κ) (v : String), k' ≠ k → get (ap a k' v) k = get a k) :
    ∀ (l : List (MetaPair κ)) (a : α), k ∉ l.map MetaPair.key →
      get (l.foldl (fun a p => ap a p.key p.value) a) k = get a k := by
  intro l
  induction l with
  | nil => intro a _; rfl
  | cons q t ih =>
    intro a h
    simp only [List.map_cons, List.mem_cons] at h
    push_neg at h
    rw [List.foldl_cons, ih _ h.2, hother a q.key q.value (fun he => h.1 he.symm)]

/-- Folding the apply function over pairs with pairwise-distinct keys sets the
`k` field to the value of the (unique) pair with key `k`. -/
theorem foldl_apply_get_find {κ α : Type} [DecidableEq κ]
    (get : α → κ → Option String) (ap : α → κ → String → α) (k : κ)
    (hset : ∀ (a : α) (v : String), get (ap a k v) k = some v)
    (hother : ∀ (a : α) (k' : κ) (v : String), k' ≠ k → get (ap a k' v) k = get a k) :
    ∀ (l : List (MetaPair κ)) (a : α) (p₀ : MetaPair κ),
      (l.map MetaPair.key).Nodup →
      l.find? (fun p => decide (p.key = k)) = some p₀ →
      get (l.foldl (fun a p => ap a p.key p.value) a) k = some p₀.value := by
  intro l
  induction l with
  | nil => intro a p₀ _ hf; cases hf
  | cons q t ih =>
    intro a p₀ hnd hf
    simp only [List.map_cons, List.nodup_cons] at hnd
    by_cases hq : q.key = k
    · have hp₀ : q = p₀ := by
        simp only [List.find?_cons, decide_eq_true hq] at hf
        exact Option.some_injective _ hf
      subst hp₀
      rw [List.foldl_cons]
      rw [foldl_apply_get_not_mem get ap k hother t _ (hq ▸ hnd.1)]
      rw [hq]
      exact hset a q.value
    · simp only [List.find?_cons, show decide (q.key = k) = false by simp [hq],
        Bool.false_eq_true] at hf
      rw [List.foldl_cons]
      exact ih _ p₀ hnd.2 hf

/-- `dedupMeta` from an empty `seenPairs` renders every duplicate with the
first declared value of its key. -/
theorem dedupMeta_diags_nil {κ α : Type} [DecidableEq κ] (keyName : κ → String)
    (ap : α → κ → String → α) (file : String) (ps : List (MetaPair κ)) (a : α) :
    (dedupMeta keyName ap file a [] ps).2.2 = dupDiagsOf keyName file ps := by
  rw [dedupMeta_diags]
  apply List.map_congr_left
  intro q _
  simp [alookup, dupDiagsOf, Option.none_orElse']

/-- `l.find?` is the head of `l.filter`. -/
theorem find?_eq_head?_filter {α : Type} (p : α → Bool) (l : List α) :
    l.find? p = (l.filter p).head? := by
  induction l with
  | nil => rfl
  | cons a t ih =>
    cases hpa : p a
    · rw [List.find?_cons_of_neg _ (by simp [hpa]),
        List.filter_cons_of_neg (by simp [hpa])]
      exact ih
    · rw [List.find?_cons_of_pos _ hpa, List.filter_cons_of_pos hpa]
      rfl

/-- Generic duplicate-metadata specification, shared by the profile/extension,
instance and value-set metadata walks: when key `k` occurs at least twice,
the walked entity's `k` field holds the first declared value, the diagnostics
are exactly the per-duplicate messages, the duplicates of `k` are exactly all
its occurrences after the first, and therefore number one fewer than the
occurrences. -/
theorem dedupMeta_spec {κ α : Type} [DecidableEq κ] (keyName : κ → String)
    (ap : α → κ → String → α) (get : α → κ → Option String) (file : String)
    (k : κ)
    (hset : ∀ (a : α) (v : String), get (ap a k v) k = some v)
    (hother : ∀ (a : α) (k' : κ) (v : String), k' ≠ k → get (ap a k' v) k = get a k)
    (pairs : List (MetaPair κ)) (a : α)
    (hocc : 2 ≤ (metaOccs k pairs).length) :
    get (dedupMeta keyName ap file a [] pairs).1 k
        = (pairs.find? (fun p => decide (p.key = k))).map MetaPair.value
      ∧ (dedupMeta keyName ap file a [] pairs).2.2 = dupDiagsOf keyName file pairs
      ∧ (dupsFrom ([] : List (κ × String)) pairs).filter (fun p => decide (p.key = k))
          = (metaOccs k pairs).drop 1
      ∧ ((dupsFrom ([] : List (κ × String)) pairs).filter
            (fun p => decide (p.key = k))).length
          = (metaOccs k pairs).length - 1 := by
  have hnil : alookup ([] : List (κ × String)) k = none := rfl
  have hfind : pairs.find? (fun p => decide (p.key = k))
      = (metaOccs k pairs).head? := find?_eq_head?_filter _ _
  have hdrop : (dupsFrom ([] : List (κ × String)) pairs).filter
      (fun p => decide (p.key = k)) = (metaOccs k pairs).drop 1 :=
    dupsFrom_filter_of_none k pairs [] hnil
  refine ⟨?_, dedupMeta_diags_nil keyName ap file pairs a, hdrop, ?_⟩
  · obtain ⟨p₀, rest, hocc'⟩ : ∃ p₀ rest, metaOccs k pairs = p₀ :: rest := by
      cases ho : metaOccs k pairs with
      | nil => rw [ho] at hocc; cases hocc
      | cons p₀ rest => exact ⟨p₀, rest, rfl⟩
    have hfind' : pairs.find? (fun p => decide (p.key = k)) = some p₀ := by
      rw [hfind, hocc']; rfl
    rw [dedupMeta_fst, hfind']
    have hnews : (newsFrom ([] : List (κ × String)) pairs).find?
        (fun p => decide (p.key = k)) = some p₀ := by
      rw [newsFrom_find_of_none k pairs [] hnil]; exact hfind'
    exact foldl_apply_get_find get ap k hset hother _ a p₀
      (newsFrom_nodup pairs []).1 hnews
  · rw [hdrop, List.length_drop]

/-- `applySdKey` sets the field its key controls (for the known keys). -/
theorem sd_hset (k : SdMetadataKey) (hk : k ≠ SdMetadataKey.Unknown) :
    ∀ (a : SDef) (v : String), getSdField (applySdKey a k v) k = some v := by
  intro a v
  cases k with
  | Id => rfl
  | Parent => rfl
  | Title => rfl
  | Description => rfl
  | Unknown => exact absurd rfl hk

/-- `applySdKey` leaves the fields of other keys untouched. -/
theorem sd_hother (k : SdMetadataKey) :
    ∀ (a : SDef) (k' : SdMetadataKey) (v : String), k' ≠ k →
      getSdField (applySdKey a k' v) k = getSdField a k := by
  intro a k' v h
  cases k' <;> cases k <;> first | rfl | exact absurd rfl h

/-- `applyInstanceKey` sets the field its key controls (for the known keys). -/
theorem instance_hset (k : InstanceMetadataKey)
    (hk : k ≠ InstanceMetadataKey.Unknown) :
    ∀ (a : FshInstance) (v : String),
      getInstanceField (applyInstanceKey a k v) k = some v := by
  intro a v
  cases k with
  | InstanceOf => rfl
  | Title => rfl
  | Unknown => exact absurd rfl hk

/-- `applyInstanceKey` leaves the fields of other keys untouched. -/
theorem instance_hother (k : InstanceMetadataKey) :
    ∀ (a : FshInstance) (k' : InstanceMetadataKey) (v : String), k' ≠ k →
      getInstanceField (applyInstanceKey a k' v) k = getInstanceField a k := by
  intro a k' v h
  cases k' <;> cases k <;> first | rfl | exact absurd rfl h

/-- `applyVsKey` sets the field its key controls (for the known keys). -/
theorem vs_hset (k : VsMetadataKey) (hk : k ≠ VsMetadataKey.Unknown) :
    ∀ (a : FshValueSet) (v : String), getVsField (applyVsKey a k v) k = some v := by
  intro a v
  cases k with
  | Id => rfl
  | Title => rfl
  | Description => rfl
  | Unknown => exact absurd rfl hk

/-- `applyVsKey` leaves the fields of other keys untouched. -/
theorem vs_hother (k : VsMetadataKey) :
    ∀ (a : FshValueSet) (k' : VsMetadataKey) (v : String), k' ≠ k →
      getVsField (applyVsKey a k' v) k = getVsField a k := by
  intro a k' v h
  cases k' <;> cases k <;> first | rfl | exact absurd rfl h

/-- Updating the rule list does not move any metadata field. -/
theorem getSdField_rules (d : SDef) (rs : List SdRule) (k : SdMetadataKey) :
    getSdField { d with rules := rs } k = getSdField d k := by
  cases k <;> rfl

/-- Updating the rule list does not move any instance-metadata field. -/
theorem getInstanceField_rules (i : FshInstance) (rs : List FixedValueRule)
    (k : InstanceMetadataKey) :
    getInstanceField { i with rules := rs } k = getInstanceField i k := by
  cases k <;> rfl

/-- Updating the component list does not move any value-set metadata field. -/
theorem getVsField_components (v : FshValueSet) (cs : List VsComponent)
    (k : VsMetadataKey) :
    getVsField { v with components := cs } k = getVsField v k := by
  cases k <;> rfl

/-- Unfolding of the payload component of `parseInstance`. -/
theorem parseInstance_fst (inst : FshInstance) (file : String)
    (pairs : List (MetaPair InstanceMetadataKey)) (rules : List FixedValueRule) :
    (parseInstance inst file pairs rules).1
      = (if jsTruthy (dedupMeta instanceKeyName applyInstanceKey file inst
            [] pairs).1.instanceOf then
          Except.ok
            { (dedupMeta instanceKeyName applyInstanceKey file inst [] pairs).1
              with
              rules := (dedupMeta instanceKeyName applyInstanceKey file inst
                [] pairs).1.rules ++ rules }
        else
          Except.error (requiredMetadataMsg "InstanceOf" "Instance" inst.name)) :=
  rfl

/-- C4.  For every profile or extension, instance, or value set whose metadata
block declares the same key `k` more than once, the produced entity carries
the value of the first declaration of `k`, every later declaration of `k` is
discarded (the discarded occurrences of `k` are exactly all its occurrences
after the first, so there are `n - 1` of them), and the emitted diagnostics
are exactly one duplicate-metadata error per discarded pair, each rendered at
the duplicate's location. -/
theorem C4_duplicate_metadata_first_wins :
    (∀ (d : SDef) (file : String) (pairs : List (MetaPair SdMetadataKey))
        (rules : List SdRule) (k : SdMetadataKey),
      k ≠ SdMetadataKey.Unknown → 2 ≤ (metaOccs k pairs).length →
      getSdField (parseProfileOrExtension d file pairs rules).1 k
          = (pairs.find? (fun p => decide (p.key = k))).map MetaPair.value
        ∧ (parseProfileOrExtension d file pairs rules).2
          = dupDiagsOf sdKeyName file pairs
        ∧ (dupsFrom ([] : List (SdMetadataKey × String)) pairs).filter
              (fun p => decide (p.key = k)) = (metaOccs k pairs).drop 1
        ∧ ((dupsFrom ([] : List (SdMetadataKey × String)) pairs).filter
              (fun p => decide (p.key = k))).length
            = (metaOccs k pairs).length - 1)
    ∧ (∀ (i : FshInstance) (file : String)
        (pairs : List (MetaPair InstanceMetadataKey))
        (rules : List FixedValueRule) (k : InstanceMetadataKey),
      k ≠ InstanceMetadataKey.Unknown → 2 ≤ (metaOccs k pairs).length →
      (∀ i1, (parseInstance i file pairs rules).1 = Except.ok i1 →
          getInstanceField i1 k
            = (pairs.find? (fun p => decide (p.key = k))).map MetaPair.value)
        ∧ (parseInstance i file pairs rules).2
          = dupDiagsOf instanceKeyName file pairs
        ∧ (dupsFrom ([] : List (InstanceMetadataKey × String)) pairs).filter
              (fun p => decide (p.key = k)) = (metaOccs k pairs).drop 1
        ∧ ((dupsFrom ([] : List (InstanceMetadataKey × String)) pairs).filter
              (fun p => decide (p.key = k))).length
            = (metaOccs k pairs).length - 1)
    ∧ (∀ (v : FshValueSet) (file : String) (pairs : List (MetaPair VsMetadataKey))
        (components : List VsComponent) (k : VsMetadataKey),
      k ≠ VsMetadataKey.Unknown → 2 ≤ (metaOccs k pairs).length →
      getVsField (parseValueSet v file pairs components).1 k
          = (pairs.find? (fun p => decide (p.key = k))).map MetaPair.value
        ∧ (parseValueSet v file pairs components).2
          = dupDiagsOf vsKeyName file pairs
        ∧ (dupsFrom ([] : List (VsMetadataKey × String)) pairs).filter
              (fun p => decide (p.key = k)) = (metaOccs k pairs).drop 1
        ∧ ((dupsFrom ([] : List (VsMetadataKey × String)) pairs).filter
              (fun p => decide (p.key = k))).length
            = (metaOccs k pairs).length - 1) := by
  refine ⟨?_, ?_, ?_⟩
  · intro d file pairs rules k hk hocc
    have spec := dedupMeta_spec sdKeyName applySdKey getSdField file k
      (sd_hset k hk) (sd_hother k) pairs d hocc
    refine ⟨?_, spec.2.1, spec.2.2.1, spec.2.2.2⟩
    rw [show (parseProfileOrExtension d file pairs rules).1
        = { (dedupMeta sdKeyName applySdKey file d [] pairs).1 with
            rules := (dedupMeta sdKeyName applySdKey file d [] pairs).1.rules
              ++ rules } from rfl]
    rw [getSdField_rules]
    exact spec.1
  · intro i file pairs rules k hk hocc
    have spec := dedupMeta_spec instanceKeyName applyInstanceKey getInstanceField
      file k (instance_hset k hk) (instance_hother k) pairs i hocc
    refine ⟨?_, spec.2.1, spec.2.2.1, spec.2.2.2⟩
    intro i1 h1
    rw [parseInstance_fst] at h1
    by_cases hb : jsTruthy (dedupMeta instanceKeyName applyInstanceKey file i
        [] pairs).1.instanceOf
    · rw [if_pos hb] at h1
      have := Except.ok.inj h1
      rw [← this, getInstanceField_rules]
      exact spec.1
    · rw [if_neg hb] at h1
      cases h1
  · intro v file pairs components k hk hocc
    have spec := dedupMeta_spec vsKeyName applyVsKey getVsField file k
      (vs_hset k hk) (vs_hother k) pairs v hocc
    refine ⟨?_, spec.2.1, spec.2.2.1, spec.2.2.2⟩
    rw [show (parseValueSet v file pairs components).1
        = { (dedupMeta vsKeyName applyVsKey file v [] pairs).1 with
            components := components.foldl addVsComponent
              (dedupMeta vsKeyName applyVsKey file v [] pairs).1.components }
          from rfl]
    rw [getVsField_components]
    exact spec.1

/-- Witness for C4 at concrete inputs: two declarations of the same key give
the first value on the entity and exactly one duplicate diagnostic, for all
three entity families. -/
theorem C4_duplicate_metadata_first_wins_witness :
    2 ≤ (metaOccs SdMetadataKey.Title c4SdPairs).length
      ∧ getSdField (parseProfileOrExtension c4Sd "f" c4SdPairs []).1 .Title
        = some "T1"
      ∧ (parseProfileOrExtension c4Sd "f" c4SdPairs []).2.length = 1
      ∧ (parseInstance c4Inst "f" c4InstPairs []).2.length = 1
      ∧ getVsField (parseValueSet c4Vs "f" c4VsPairs []).1 .Id = some "a" := by
  refine ⟨by decide, ?_, ?_, ?_, ?_⟩
  · exact ((C4_duplicate_metadata_first_wins.1 c4Sd "f" c4SdPairs [] .Title
      (by decide) (by decide)).1).trans (by decide)
  · rw [(C4_duplicate_metadata_first_wins.1 c4Sd "f" c4SdPairs [] .Title
      (by decide) (by decide)).2.1]
    decide
  · rw [(C4_duplicate_metadata_first_wins.2.1 c4Inst "f" c4InstPairs []
      .InstanceOf (by decide) (by decide)).2.1]
    decide
  · exact ((C4_duplicate_metadata_first_wins.2.2 c4Vs "f" c4VsPairs [] .Id
      (by decide) (by decide)).1).trans (by decide)

/-- Accepted pairs are pairs of the walked block. -/
theorem newsFrom_subset {κ : Type} [DecidableEq κ] :
    ∀ (ps : List (MetaPair κ)) (seen : List (κ × String)) (q : MetaPair κ),
      q ∈ newsFrom seen ps → q ∈ ps := by
  intro ps
  induction ps with
  | nil => intro seen q hq; cases hq
  | cons p rest ih =>
    intro seen q hq
    cases hp : alookup seen p.key with
    | some w =>
      rw [newsFrom, hp] at hq
      exact List.mem_cons_of_mem p (ih seen q hq)
    | none =>
      rw [newsFrom, hp] at hq
      cases hq with
      | head => exact List.mem_cons_self p rest
      | tail _ hm => exact List.mem_cons_of_mem p (ih _ q hm)

/-- The metadata walk of an instance never touches its rule list. -/
theorem instance_fold_rules :
    ∀ (l : List (MetaPair InstanceMetadataKey)) (a : FshInstance),
      (l.foldl (fun a p => applyInstanceKey a p.key p.value) a).rules = a.rules := by
  intro l
  induction l with
  | nil => intro a; rfl
  | cons p t ih =>
    intro a
    rw [List.foldl_cons, ih]
    cases p.key <;> rfl

/-- C5.  For an instance whose metadata never sets `InstanceOf`, processing
raises the required-metadata error, which is caught and logged as an error
diagnostic carrying the instance's source info, and the instance is not
inserted into the document's instance map; for an instance whose metadata
does set `InstanceOf` (to a non-empty resolved value, as SEQUENCE tokens
guarantee), the instance is inserted with its fixed-value rules appended in
source order. -/
theorem C5_instance_of_required (doc : List (String × FshInstance))
    (name file : String) (loc : TextLocation)
    (pairs : List (MetaPair InstanceMetadataKey)) (rules : List FixedValueRule)
    (hval : ∀ p ∈ pairs, p.key = InstanceMetadataKey.InstanceOf → p.value ≠ "") :
    ((∀ p ∈ pairs, p.key ≠ InstanceMetadataKey.InstanceOf) →
      (visitInstance doc name file loc pairs rules).1 = doc
      ∧ ∃ ds, (visitInstance doc name file loc pairs rules).2
          = ds ++ [⟨requiredMetadataMsg "InstanceOf" "Instance" name, file, loc⟩])
    ∧ ((∃ p ∈ pairs, p.key = InstanceMetadataKey.InstanceOf) →
      ∃ i1, (visitInstance doc name file loc pairs rules).1 = alistSet doc name i1
        ∧ i1.rules = rules) := by
  constructor
  · intro hno
    have hkey : InstanceMetadataKey.InstanceOf
        ∉ (newsFrom ([] : List (InstanceMetadataKey × String)) pairs).map
            MetaPair.key := by
      intro hmem
      obtain ⟨q, hq, hqk⟩ := List.exists_of_mem_map hmem
      exact hno q (newsFrom_subset pairs [] q hq) hqk
    have hfield : (dedupMeta instanceKeyName applyInstanceKey file
        ⟨name, none, none, [], ⟨file, loc⟩⟩ [] pairs).1.instanceOf = none := by
      rw [dedupMeta_fst]
      exact foldl_apply_get_not_mem getInstanceField applyInstanceKey
        .InstanceOf (instance_hother _) _ _ hkey
    have h1 : (parseInstance ⟨name, none, none, [], ⟨file, loc⟩⟩ file pairs
        rules).1 = Except.error (requiredMetadataMsg "InstanceOf" "Instance" name) := by
      rw [parseInstance_fst, hfield]
      rfl
    simp only [visitInstance]
    rw [h1]
    exact ⟨rfl, _, rfl⟩
  · intro hex
    obtain ⟨p, hp, hpk⟩ := hex
    cases hf : pairs.find? (fun q => decide (q.key = InstanceMetadataKey.InstanceOf)) with
    | none =>
      have := List.find?_eq_none.mp hf p hp
      rw [hpk] at this
      simp at this
    | some p₀ =>
      have hp₀mem : p₀ ∈ pairs := List.mem_of_find?_eq_some hf
      have hp₀key : p₀.key = InstanceMetadataKey.InstanceOf := by
        have := List.find?_some hf
        exact of_decide_eq_true this
      have hfield : (dedupMeta instanceKeyName applyInstanceKey file
          ⟨name, none, none, [], ⟨file, loc⟩⟩ [] pairs).1.instanceOf
          = some p₀.value := by
        rw [dedupMeta_fst]
        exact foldl_apply_get_find getInstanceField applyInstanceKey
          .InstanceOf (instance_hset _ (by simp)) (instance_hother _) _ _ p₀
          (newsFrom_nodup pairs []).1
          ((newsFrom_find_of_none _ pairs [] rfl).trans hf)
      have htr : jsTruthy (dedupMeta instanceKeyName applyInstanceKey file
          ⟨name, none, none, [], ⟨file, loc⟩⟩ [] pairs).1.instanceOf = true := by
        rw [hfield]
        simpa [jsTruthy] using hval p₀ hp₀mem hp₀key
      have h1 : (parseInstance ⟨name, none, none, [], ⟨file, loc⟩⟩ file pairs
          rules).1 = Except.ok
            { (dedupMeta instanceKeyName applyInstanceKey file
                ⟨name, none, none, [], ⟨file, loc⟩⟩ [] pairs).1 with
              rules := (dedupMeta instanceKeyName applyInstanceKey file
                ⟨name, none, none, [], ⟨file, loc⟩⟩ [] pairs).1.rules ++ rules } := by
        rw [parseInstance_fst, if_pos htr]
      refine ⟨{ (dedupMeta instanceKeyName applyInstanceKey file
          ⟨name, none, none, [], ⟨file, loc⟩⟩ [] pairs).1 with
          rules := (dedupMeta instanceKeyName applyInstanceKey file
            ⟨name, none, none, [], ⟨file, loc⟩⟩ [] pairs).1.rules ++ rules },
        ?_, ?_⟩
      · simp only [visitInstance]
        rw [h1]
      · show (dedupMeta instanceKeyName applyInstanceKey file
            ⟨name, none, none, [], ⟨file, loc⟩⟩ [] pairs).1.rules ++ rules = rules
        rw [dedupMeta_fst, instance_fold_rules]
        rfl

/-- Witness for C5 at concrete inputs: without `InstanceOf:` the instance is
dropped and the required-metadata diagnostic is logged at the instance's
location; with `InstanceOf:` it is inserted with its fixed-value rules. -/
theorem C5_instance_of_required_witness :
    ((visitInstance [] "I" "f" (wloc 1) [⟨.Title, "T", wloc 2⟩] []).1 = []
      ∧ ∃ ds, (visitInstance [] "I" "f" (wloc 1) [⟨.Title, "T", wloc 2⟩] []).2
          = ds ++ [⟨requiredMetadataMsg "InstanceOf" "Instance" "I", "f", wloc 1⟩])
    ∧ ∃ i1, (visitInstance [] "I" "f" (wloc 1)
          [⟨.InstanceOf, "Patient", wloc 2⟩] [⟨"status", "x", wloc 3⟩]).1
        = alistSet [] "I" i1 ∧ i1.rules = [⟨"status", "x", wloc 3⟩] :=
  ⟨(C5_instance_of_required [] "I" "f" (wloc 1) [⟨.Title, "T", wloc 2⟩] []
      (by decide)).1 (by decide),
   (C5_instance_of_required [] "I" "f" (wloc 1)
      [⟨.InstanceOf, "Patient", wloc 2⟩] [⟨"status", "x", wloc 3⟩]
      (by decide)).2 ⟨⟨.InstanceOf, "Patient", wloc 2⟩, by simp, rfl⟩⟩

/-- The match predicate agrees with merge-key equality. -/
theorem sameConceptTriple_iff (inc : Bool) (fr : ValueSetComponentFrom)
    (x : VsComponent) :
    sameConceptTriple inc fr x = true
      ↔ conceptTripleKey x = some (inc, fr.system, sortedValueSets fr.valueSets) := by
  cases x with
  | concept i2 f2 cs2 =>
    simp only [sameConceptTriple, conceptTripleKey, decide_eq_true_eq,
      Option.some_inj, Prod.mk.injEq]
    constructor
    · rintro ⟨h1, h2, h3⟩; exact ⟨h1.symm, h2.symm, h3.symm⟩
    · rintro ⟨h1, h2, h3⟩; exact ⟨h1.symm, h2.symm, h3.symm⟩
  | filter i2 f2 fs2 =>
    simp [sameConceptTriple, conceptTripleKey]

/-- `appendConcepts` does not change the merge key. -/
theorem conceptTripleKey_appendConcepts (x : VsComponent) (cs : List FshCode) :
    conceptTripleKey (appendConcepts x cs) = conceptTripleKey x := by
  cases x <;> rfl

/-- Full case analysis of `mergeConcept`: either nothing matches and the merge
fails, or the list splits around the first match, whose concepts are extended
in place. -/
theorem mergeConcept_spec :
    ∀ (comps : List VsComponent) (inc : Bool) (fr : ValueSetComponentFrom)
      (cs : List FshCode),
      (mergeConcept comps inc fr cs = none
        ∧ ∀ y ∈ comps, sameConceptTriple inc fr y = false)
      ∨ (∃ pre x post, comps = pre ++ x :: post
          ∧ (∀ y ∈ pre, sameConceptTriple inc fr y = false)
          ∧ sameConceptTriple inc fr x = true
          ∧ mergeConcept comps inc fr cs
            = some (pre ++ appendConcepts x cs :: post)) := by
  intro comps
  induction comps with
  | nil =>
    intro inc fr cs
    exact Or.inl ⟨rfl, by intro y hy; cases hy⟩
  | cons x t ih =>
    intro inc fr cs
    by_cases hx : sameConceptTriple inc fr x = true
    · refine Or.inr ⟨[], x, t, rfl, ?_, hx, ?_⟩
      · intro y hy
        cases hy
      · simp [mergeConcept, hx]
    · have hx' : sameConceptTriple inc fr x = false := by
        cases hb : sameConceptTriple inc fr x
        · rfl
        · exact absurd hb hx
      cases ih inc fr cs with
      | inl hcase =>
        refine Or.inl ⟨?_, ?_⟩
        · simp [mergeConcept, hx', hcase.1]
        · intro y hy
          cases hy with
          | head => exact hx'
          | tail _ hm => exact hcase.2 y hm
      | inr hcase =>
        obtain ⟨pre, x₀, post, he, hpre, hx₀, hm⟩ := hcase
        refine Or.inr ⟨x :: pre, x₀, post, by rw [he]; rfl, ?_, hx₀, ?_⟩
        · intro y hy
          cases hy with
          | head => exact hx'
          | tail _ hmem => exact hpre y hmem
        · simp [mergeConcept, hx', hm]

/-- Clashing is determined by the merge keys alone. -/
theorem tripleClash_congr (a a' b : VsComponent)
    (h : conceptTripleKey a = conceptTripleKey a') :
    (TripleClash a b ↔ TripleClash a' b) ∧ (TripleClash b a ↔ TripleClash b a') := by
  constructor
  · unfold TripleClash; rw [h]
  · unfold TripleClash; rw [h]

/-- Replacing one element by another with the same merge key preserves the
no-duplicate-triples invariant. -/
theorem noDup_replace (pre post : List VsComponent) (x x' : VsComponent)
    (hk : conceptTripleKey x' = conceptTripleKey x)
    (h : NoDupConceptTriples (pre ++ x :: post)) :
    NoDupConceptTriples (pre ++ x' :: post) := by
  unfold NoDupConceptTriples at h ⊢
  rw [List.pairwise_append] at h ⊢
  obtain ⟨h1, h2, h3⟩ := h
  rw [List.pairwise_cons] at h2 ⊢
  refine ⟨h1, ⟨?_, h2.2⟩, ?_⟩
  · intro b hb
    intro hc
    exact h2.1 b hb ((tripleClash_congr x' x b hk).1.mp hc)
  · intro a ha b hb
    cases hb with
    | head =>
      intro hc
      exact h3 a ha x (by simp) ((tripleClash_congr x' x a hk).2.mp hc)
    | tail _ hm => exact h3 a ha b (List.mem_cons_of_mem x hm)

/-- One step of the component loop preserves the invariant. -/
theorem addVsComponent_noDup (comps : List VsComponent) (c : VsComponent)
    (h : NoDupConceptTriples comps) :
    NoDupConceptTriples (addVsComponent comps c) := by
  cases c with
  | filter inc fr fs =>
    unfold NoDupConceptTriples
    rw [show addVsComponent comps (.filter inc fr fs)
        = comps ++ [.filter inc fr fs] from rfl, List.pairwise_append]
    refine ⟨h, by simp, ?_⟩
    intro a _ b hb
    rw [List.mem_singleton] at hb
    subst hb
    intro hc
    obtain ⟨hne, heq⟩ := hc
    rw [show conceptTripleKey (VsComponent.filter inc fr fs) = none from rfl]
      at heq
    exact hne heq
  | concept inc fr cs =>
    cases mergeConcept_spec comps inc fr cs with
    | inl hcase =>
      rw [show addVsComponent comps (.concept inc fr cs)
          = match mergeConcept comps inc fr cs with
            | some merged => merged
            | none => comps ++ [.concept inc fr cs] from rfl, hcase.1]
      unfold NoDupConceptTriples
      rw [List.pairwise_append]
      refine ⟨h, by simp, ?_⟩
      intro a ha b hb
      rw [List.mem_singleton] at hb
      subst hb
      intro hc
      have : sameConceptTriple inc fr a = true := by
        rw [sameConceptTriple_iff]
        have heq := hc.2
        rw [show conceptTripleKey (VsComponent.concept inc fr cs)
            = some (inc, fr.system, sortedValueSets fr.valueSets) from rfl] at heq
        exact heq
      rw [hcase.2 a ha] at this
      cases this
    | inr hcase =>
      obtain ⟨pre, x, post, he, _, _, hm⟩ := hcase
      rw [show addVsComponent comps (.concept inc fr cs)
          = match mergeConcept comps inc fr cs with
            | some merged => merged
            | none => comps ++ [.concept inc fr cs] from rfl, hm]
      exact noDup_replace pre post x (appendConcepts x cs)
        (conceptTripleKey_appendConcepts x cs) (he ▸ h)

/-- The whole loop establishes the invariant. -/
theorem foldVsComponents_noDup_aux :
    ∀ (l : List VsComponent) (acc : List VsComponent),
      NoDupConceptTriples acc →
      NoDupConceptTriples (l.foldl addVsComponent acc) := by
  intro l
  induction l with
  | nil => intro acc h; exact h
  | cons c t ih =>
    intro acc h
    exact ih (addVsComponent acc c) (addVsComponent_noDup acc c h)

/-- C2.  Within one parsed value set: appending a ConceptComponent whose
`(inclusion, from.system, sorted(from.valueSets))` triple matches a component
already in the list merges it into the first matching existing component,
whose concepts become the source-order concatenation of both concept lists
(no element is added or removed elsewhere); and the component loop, starting
from the fresh value set, never leaves two concept components with the same
triple in the list. -/
theorem C2_concept_component_merge :
    (∀ (comps : List VsComponent) (inc : Bool) (fr : ValueSetComponentFrom)
        (cs : List FshCode),
      (∃ x ∈ comps, sameConceptTriple inc fr x = true) →
      ∃ pre x post i2 f2 cs0,
        comps = pre ++ x :: post
        ∧ (∀ y ∈ pre, sameConceptTriple inc fr y = false)
        ∧ sameConceptTriple inc fr x = true
        ∧ x = VsComponent.concept i2 f2 cs0
        ∧ addVsComponent comps (VsComponent.concept inc fr cs)
            = pre ++ VsComponent.concept i2 f2 (cs0 ++ cs) :: post)
    ∧ (∀ (comps : List VsComponent) (c : VsComponent),
        NoDupConceptTriples comps → NoDupConceptTriples (addVsComponent comps c))
    ∧ (∀ visited : List VsComponent,
        NoDupConceptTriples (foldVsComponents visited)) := by
  refine ⟨?_, addVsComponent_noDup, ?_⟩
  · intro comps inc fr cs hex
    cases mergeConcept_spec comps inc fr cs with
    | inl hcase =>
      obtain ⟨x, hx, hxt⟩ := hex
      rw [hcase.2 x hx] at hxt
      cases hxt
    | inr hcase =>
      obtain ⟨pre, x, post, he, hpre, hx, hm⟩ := hcase
      cases hxc : x with
      | filter i2 f2 fs2 =>
        rw [hxc] at hx
        rw [sameConceptTriple_iff] at hx
        cases hx
      | concept i2 f2 cs0 =>
        refine ⟨pre, x, post, i2, f2, cs0, he, hpre, hx, hxc, ?_⟩
        rw [show addVsComponent comps (.concept inc fr cs)
            = match mergeConcept comps inc fr cs with
              | some merged => merged
              | none => comps ++ [.concept inc fr cs] from rfl, hm]
        rw [hxc]
        rfl
  · intro visited
    exact foldVsComponents_noDup_aux visited []
      (by unfold NoDupConceptTriples; exact List.Pairwise.nil)

/-- Witness for C2 at concrete inputs: the matching component absorbs the new
concepts, and the invariant holds after each step and for the loop. -/
theorem C2_concept_component_merge_witness :
    (∃ pre x post i2 f2 cs0,
      c2Comps = pre ++ x :: post
      ∧ (∀ y ∈ pre,
          sameConceptTriple true ⟨some "http://s", none⟩ y = false)
      ∧ sameConceptTriple true ⟨some "http://s", none⟩ x = true
      ∧ x = VsComponent.concept i2 f2 cs0
      ∧ addVsComponent c2Comps (VsComponent.concept true ⟨some "http://s", none⟩
          [c2CodeB]) = pre ++ VsComponent.concept i2 f2 (cs0 ++ [c2CodeB]) :: post)
    ∧ NoDupConceptTriples (addVsComponent c2Comps c2New)
    ∧ NoDupConceptTriples (foldVsComponents [VsComponent.concept true
        ⟨some "http://s", none⟩ [c2CodeA], c2New]) :=
  ⟨C2_concept_component_merge.1 c2Comps true ⟨some "http://s", none⟩ [c2CodeB]
    ⟨VsComponent.concept true ⟨some "http://s", none⟩ [c2CodeA], by simp [c2Comps],
      by decide⟩,
   C2_concept_component_merge.2.1 c2Comps c2New
    (by unfold NoDupConceptTriples c2Comps; simp),
   C2_concept_component_merge.2.2 [VsComponent.concept true
      ⟨some "http://s", none⟩ [c2CodeA], c2New]⟩

/-- C10.  A value-set filter whose operator normalises to `exists` and which
is written without a value raises no error and produces the filter with value
`true`; conversely the missing-value error is only ever raised for a filter
written without a value whose operator is not `exists`. -/
theorem C10_exists_filter_defaults_true (pd : PreprocessedData)
    (defs : FHIRDefinitions) (file : String) (ctx : VsFilterDefCtx) :
    (ctx.value = none → normalizeVsOperator ctx.operatorText = "exists" →
      visitVsFilterDefinition pd defs file ctx
        = Except.ok ⟨ctx.property, "exists", VsFilterValue.bool true⟩)
    ∧ (∀ o, visitVsFilterDefinition pd defs file ctx
          = Except.error (VsFilterError.missingValue o) →
        normalizeVsOperator ctx.operatorText ≠ "exists" ∧ ctx.value = none) := by
  constructor
  · intro hv hop
    simp [visitVsFilterDefinition, hv, hop]
  · intro o h
    simp only [visitVsFilterDefinition] at h
    by_cases hc : ctx.value = none ∧ normalizeVsOperator ctx.operatorText ≠ "exists"
    · exact ⟨hc.2, hc.1⟩
    · rw [if_neg hc] at h
      exfalso
      repeat' split at h
      all_goals simp_all

/-- Witness for C10 at a concrete input: `concept EXISTS` without a value
yields the filter with boolean value `true`. -/
theorem C10_exists_filter_defaults_true_witness :
    visitVsFilterDefinition emptyPd noneDefs "f"
        ⟨"concept", "EXISTS", none, wloc 1⟩
      = Except.ok ⟨"concept", "exists", VsFilterValue.bool true⟩ :=
  (C10_exists_filter_defaults_true emptyPd noneDefs "f"
    ⟨"concept", "EXISTS", none, wloc 1⟩).1 rfl (by decide)

/-- C9 counterexample.  Processing the single offending component `* #a`
(no system, so a diagnostic is emitted and its concept is dropped) still
leaves the component itself in the value set's component list — an empty
inclusion ConceptComponent — contradicting the claim that the offending
component does not appear in the component list. -/
theorem C9_offending_component_still_in_list :
    (visitValueSetComponents emptyPd noneDefs "f" [c9Ctx]).2.length = 1
    ∧ (visitValueSetComponents emptyPd noneDefs "f" [c9Ctx]).1
        = [VsComponent.concept true {} []]
    ∧ (visitValueSetComponents emptyPd noneDefs "f" [c9Ctx]).1 ≠ [] := by
  decide

/-- C9 as amended.  For every value-set component that triggers a value-set
diagnostic — a single concept with its system given twice or not at all, a
concept list or a filter list with a missing system, or a filter whose visit
throws (bad operator, bad value type, missing value) — an error diagnostic is
emitted and the offending concept or filter entry is skipped, while
surrounding filters are still emitted; the enclosing component object itself,
however, is still appended to the component list (possibly with an empty
concepts or filters list) — merged into an existing concept component only
when one with the same triple exists. -/
theorem C9_offending_entry_skipped_component_kept (pd : PreprocessedData)
    (defs : FHIRDefinitions) (file : String) :
    (∀ (ctx : VsConceptCtx) (cctx : CodeCtx),
      ctx.body = some (VsConceptBody.single cctx) →
      jsTruthy (visitCode pd defs file cctx).system = false →
      jsTruthy (conceptFromOf pd defs ctx).system = false →
      visitVsConceptComponent pd defs file ctx
        = (([], conceptFromOf pd defs ctx),
           [⟨conceptNeedsSystemMsg (visitCode pd defs file cctx).code, file,
             ctx.loc⟩]))
    ∧ (∀ (ctx : VsConceptCtx) (cctx : CodeCtx),
      ctx.body = some (VsConceptBody.single cctx) →
      jsTruthy (visitCode pd defs file cctx).system = true →
      jsTruthy (conceptFromOf pd defs ctx).system = true →
      visitVsConceptComponent pd defs file ctx
        = (([], conceptFromOf pd defs ctx),
           [⟨conceptMultiSystemMsg (visitCode pd defs file cctx).code, file,
             ctx.loc⟩]))
    ∧ (∀ (ctx : VsConceptCtx) (raw : String) (rawLoc : TextLocation),
      ctx.body = some (VsConceptBody.commaCodes raw rawLoc) →
      jsTruthy (conceptFromOf pd defs ctx).system = false →
      visitVsConceptComponent pd defs file ctx
        = (([], conceptFromOf pd defs ctx), [⟨listNeedsSystemMsg, file, ctx.loc⟩]))
    ∧ (∀ (ctx : VsFilterCompCtx) (fds : List VsFilterDefCtx),
      ctx.filterList = some fds →
      jsTruthy (filterFromOf pd defs ctx).system = false →
      visitVsFilterComponent pd defs file ctx
        = (([], filterFromOf pd defs ctx), [⟨filterNeedsSystemMsg, file, ctx.loc⟩]))
    ∧ (∀ (ctx : VsFilterCompCtx) (pre post : List VsFilterDefCtx)
        (bad : VsFilterDefCtx) (e : VsFilterError),
      ctx.filterList = some (pre ++ bad :: post) →
      jsTruthy (filterFromOf pd defs ctx).system = true →
      visitVsFilterDefinition pd defs file bad = Except.error e →
      (visitVsFilterComponent pd defs file ctx).1.1
          = pre.filterMap (fun fd => (visitVsFilterDefinition pd defs file fd).toOption)
            ++ post.filterMap (fun fd => (visitVsFilterDefinition pd defs file fd).toOption)
        ∧ (visitVsFilterComponent pd defs file ctx).2
          = pre.filterMap (fun fd =>
              match visitVsFilterDefinition pd defs file fd with
              | Except.error e2 => some ⟨vsFilterErrorMsg e2, file, fd.loc⟩
              | Except.ok _ => none)
            ++ ⟨vsFilterErrorMsg e, file, bad.loc⟩
              :: post.filterMap (fun fd =>
                match visitVsFilterDefinition pd defs file fd with
                | Except.error e2 => some ⟨vsFilterErrorMsg e2, file, fd.loc⟩
                | Except.ok _ => none))
    ∧ (∀ (comps : List VsComponent) (inc : Bool) (fr : ValueSetComponentFrom),
      (∀ y ∈ comps, sameConceptTriple inc fr y = false) →
      addVsComponent comps (VsComponent.concept inc fr [])
        = comps ++ [VsComponent.concept inc fr []])
    ∧ (∀ (comps : List VsComponent) (inc : Bool) (fr : ValueSetComponentFrom)
        (fs : List ValueSetFilter),
      addVsComponent comps (VsComponent.filter inc fr fs)
        = comps ++ [VsComponent.filter inc fr fs]) := by
  refine ⟨?_, ?_, ?_, ?_, ?_, ?_, ?_⟩
  · intro ctx cctx hb h1 h2
    simp [visitVsConceptComponent, hb, h1, h2]
  · intro ctx cctx hb h1 h2
    simp [visitVsConceptComponent, hb, h1, h2]
  · intro ctx raw rawLoc hb h2
    simp [visitVsConceptComponent, hb, h2]
  · intro ctx fds hl hs
    simp [visitVsFilterComponent, hl, hs]
  · intro ctx pre post bad e hl hs he
    constructor
    · simp [visitVsFilterComponent, hl, hs, List.filterMap_append,
        List.filterMap_cons, he, Except.toOption]
    · simp [visitVsFilterComponent, hl, hs, List.filterMap_append,
        List.filterMap_cons, he, Except.toOption]
  · intro comps inc fr hno
    cases mergeConcept_spec comps inc fr [] with
    | inl hcase =>
      rw [show addVsComponent comps (.concept inc fr [])
          = match mergeConcept comps inc fr [] with
            | some merged => merged
            | none => comps ++ [.concept inc fr []] from rfl, hcase.1]
    | inr hcase =>
      obtain ⟨p2, x, p3, he2, _, hx, _⟩ := hcase
      rw [hno x (by rw [he2]; simp)] at hx
      cases hx
  · intro comps inc fr fs
    rfl

/-- Witness for the amended C9 at concrete inputs: the system-less concept
yields an empty concept list plus one diagnostic, and the bad filter is
skipped while the good one survives, with one diagnostic at the bad filter's
location. -/
theorem C9_offending_entry_skipped_component_kept_witness :
    visitVsConceptComponent emptyPd noneDefs "f"
        ⟨none, some (.single ⟨"#a", none, wloc 2⟩), wloc 3⟩
      = (([], {}), [⟨conceptNeedsSystemMsg "a", "f", wloc 3⟩])
    ∧ (visitVsFilterComponent emptyPd noneDefs "f" c9FilterCtx).1.1
      = [⟨"concept", "exists", VsFilterValue.bool true⟩]
    ∧ (visitVsFilterComponent emptyPd noneDefs "f" c9FilterCtx).2
      = [⟨vsFilterErrorMsg (.missingValue "in"), "f", wloc 5⟩] := by
  have h1 := (C9_offending_entry_skipped_component_kept emptyPd noneDefs "f").1
    ⟨none, some (.single ⟨"#a", none, wloc 2⟩), wloc 3⟩ ⟨"#a", none, wloc 2⟩
    rfl (by decide) (by decide)
  have h5 := (C9_offending_entry_skipped_component_kept emptyPd noneDefs
      "f").2.2.2.2.1 c9FilterCtx [⟨"concept", "exists", some .kwTrue, wloc 4⟩]
    [] ⟨"concept", "in", none, wloc 5⟩ (.missingValue "in") rfl (by decide)
    rfl
  exact ⟨h1.trans (by decide), h5.1.trans (by decide), h5.2.trans (by decide)⟩
